import Mathlib

/-
Verification model of the filepack library (src/src/filepack): a facade over
archive containers (tar, zip, 7z) and compression codecs (gzip, bzip2, xz, lz4).

The embedding models the filesystem as a finite map from locations to
structured file contents.  The byte-level work of the container/codec
libraries (tarfile, zipfile, py7zr, gzip, bz2, lzma, lz4) is external to the
repository, so a file's content is kept at the structural level: an archive
file is its member list, a compressed file records the codec, the level it was
written with and the payload it decodes to.  Backend library calls are
modelled as fallible primitives driven by an injected fault stream (an empty
stream means every call succeeds), and every successful state-changing
primitive is recorded in an event trace, which lets theorems speak about
"which step touched which path".  Python exceptions are an error type whose
wrapper constructors keep the original cause, mirroring reraise_as in
src/src/filepack/utils.py.
-/

namespace Filepack

/-- Helper for splitSlash: accumulate the current segment, cutting at each
slash. -/
def splitSlashAux : List Char → List Char → List (List Char)
  | [], acc => [acc.reverse]
  | c :: rest, acc =>
    if c = '/' then acc.reverse :: splitSlashAux rest []
    else splitSlashAux rest (c :: acc)

/-- Split a member name at the path separator, mirroring how the container
libraries interpret member names carrying directory structure (the segments
of Python str.split on the slash). -/
def splitSlash (s : String) : List String :=
  (splitSlashAux s.data []).map (fun cs => String.mk cs)

/-- Locations on disk.  User paths are the paths callers pass in; `tmp k rest`
is a path inside the k-th temporary directory handed out by the tempfile
module.  Keeping temporaries in a separate constructor reflects that
tempfile allocates fresh directories disjoint from every caller path. -/
inductive Loc where
  | user : List String → Loc
  | tmp : Nat → List String → Loc
deriving DecidableEq, Repr

/-- Base filename of a location (Python Path.name). -/
def Loc.baseName : Loc → String
  | .user xs => xs.getLastD ""
  | .tmp _ xs => xs.getLastD ""

/-- Append one path component (Python path / name). -/
def Loc.join : Loc → String → Loc
  | .user xs, n => .user (xs ++ [n])
  | .tmp k xs, n => .tmp k (xs ++ [n])

/-- Append several path components. -/
def Loc.ljoin : Loc → List String → Loc
  | .user xs, ns => .user (xs ++ ns)
  | .tmp k xs, ns => .tmp k (xs ++ ns)

/-- Parent directory of a location (Python Path.parent), none at a root. -/
def Loc.parent? : Loc → Option Loc
  | .user [] => none
  | .user (x :: xs) => some (.user ((x :: xs).dropLast))
  | .tmp _ [] => none
  | .tmp k (x :: xs) => some (.tmp k ((x :: xs).dropLast))

/-- Replace the final component (Python path.parent / newName). -/
def Loc.withName : Loc → String → Loc
  | .user xs, n => .user (xs.dropLast ++ [n])
  | .tmp k xs, n => .tmp k (xs.dropLast ++ [n])

/-- Is this location inside the k-th temporary directory? -/
def Loc.inTmp (k : Nat) : Loc → Bool
  | .tmp j _ => j == k
  | .user _ => false

/-- Index of the last occurrence of a dot in a character list. -/
def lastDotIdx : List Char → Option Nat
  | [] => none
  | c :: rest =>
    match lastDotIdx rest with
    | some i => some (i + 1)
    | none => if c == '.' then some 0 else none

/-- Python pathlib suffix: the final dotted extension of a filename, with the
dot; empty for names whose only dot is leading or trailing. -/
def pySuffix (name : String) : String :=
  match lastDotIdx name.data with
  | some i =>
    if 0 < i ∧ i + 1 < name.data.length then String.mk (name.data.drop i) else ""
  | none => ""

/-- Python pathlib stem: the filename with its final suffix removed. -/
def pyStem (name : String) : String :=
  match lastDotIdx name.data with
  | some i =>
    if 0 < i ∧ i + 1 < name.data.length then String.mk (name.data.take i) else name
  | none => name

/-- Python str.lstrip with a dot argument: drop all leading dots. -/
def lstripDot (s : String) : String :=
  String.mk (s.data.dropWhile (fun c => c == '.'))

/-- Closed set of archive container formats (ArchiveType in
src/src/filepack/archives/models.py). -/
inductive ArchiveType where
  | tar
  | zip
  | sevenZip
deriving DecidableEq, Repr

/-- Modelled from the spec: the enum values TAR_SUFFIX, ZIP_SUFFIX and
SEVEN_ZIP_SUFFIX come from filepack/archives/consts.py, which is not among
the sources; the spec's closed archive set and the filetype library fix them
as the usual extensions. -/
def ArchiveType.ext : ArchiveType → String
  | .tar => "tar"
  | .zip => "zip"
  | .sevenZip => "7z"

/-- Enum construction ArchiveType(value): the member whose value matches, if
any. -/
def ArchiveType.ofExt? (s : String) : Option ArchiveType :=
  if s = "tar" then some .tar
  else if s = "zip" then some .zip
  else if s = "7z" then some .sevenZip
  else none

/-- Closed set of compression codecs (CompressionType in
src/src/filepack/compressions/models.py). -/
inductive CompressionType where
  | gzip
  | xz
  | lz4
  | bz2
deriving DecidableEq, Repr

/-- Modelled from the spec: the enum values GZIP_SUFFIX, XZ_SUFFIX, LZ4_SUFFIX
and BZ2_SUFFIX come from filepack/compressions/consts.py, which is not among
the sources; the spec's closed compression set and the filetype library fix
them as the usual extensions. -/
def CompressionType.ext : CompressionType → String
  | .gzip => "gz"
  | .xz => "xz"
  | .lz4 => "lz4"
  | .bz2 => "bz2"

/-- Enum construction CompressionType(value). -/
def CompressionType.ofExt? (s : String) : Option CompressionType :=
  if s = "gz" then some .gzip
  else if s = "xz" then some .xz
  else if s = "lz4" then some .lz4
  else if s = "bz2" then some .bz2
  else none

/-- Structured file contents.  `plain` is a file none of the magic-byte
sniffers recognize (for example plain text).  `archiveF t entries` is an
archive file of container format t holding the listed members in backend
enumeration order.  `compressedF c level payload` is the output of codec c at
the given level over the file payload (codecs are lossless, so the payload
determines what decompression writes back). -/
inductive FileData where
  | plain : List Nat → FileData
  | archiveF : ArchiveType → List (String × FileData) → FileData
  | compressedF : CompressionType → Option Nat → FileData → FileData

/-- Content sniffing (the filetype library inside
get_file_type_extension, src/src/filepack/utils.py): the extension string a
magic-byte classifier reports for the file's content, none when the content
matches no known signature. -/
def sniffExt : FileData → Option String
  | .plain _ => none
  | .archiveF t _ => some t.ext
  | .compressedF c _ _ => some c.ext

/-- Python exceptions raised by the library.  Wrapper constructors carry the
original cause the way reraise_as (src/src/filepack/utils.py) chains
exceptions. -/
inductive PyErr where
  | valueError : String → PyErr
  | fileNotFoundError : PyErr
  | keyError : PyErr
  | ioFault : PyErr
  | archiveMemberDoesNotExist : PyErr
  | fileAlreadyCompressed : PyErr
  | fileNotCompressed : PyErr
  | compressionTypeNotSupported : PyErr
  | failedToGetArchiveMembers : PyErr → PyErr
  | failedToGetArchiveMember : PyErr → PyErr
  | failedToExtractArchiveMember : PyErr → PyErr
  | failedToExtractArchiveMembers : PyErr → PyErr
  | failedToAddNewMemberToArchive : PyErr → PyErr
  | failedToRemoveArchiveMember : PyErr → PyErr
  | failedToRemoveArchiveMembers : PyErr → PyErr
  | failedToCompressFile : PyErr → PyErr
  | failedToDecompressFile : PyErr → PyErr
  | failedToGetCompressedSize : PyErr → PyErr
  | failedToGetUncompressedSize : PyErr → PyErr
  | exceptionGroup : PyErr → PyErr → PyErr
deriving DecidableEq, Repr

/-- Root cause of an exception chain: unwrap the reraise_as wrappers. -/
def PyErr.root : PyErr → PyErr
  | .failedToGetArchiveMembers e => e.root
  | .failedToGetArchiveMember e => e.root
  | .failedToExtractArchiveMember e => e.root
  | .failedToExtractArchiveMembers e => e.root
  | .failedToAddNewMemberToArchive e => e.root
  | .failedToRemoveArchiveMember e => e.root
  | .failedToRemoveArchiveMembers e => e.root
  | .failedToCompressFile e => e.root
  | .failedToDecompressFile e => e.root
  | .failedToGetCompressedSize e => e.root
  | .failedToGetUncompressedSize e => e.root
  | e => e

/-- Message of the ValueError raised by Archive.__init__ for an unsupported
suffix (ERROR_MESSAGE_NOT_SUPPORTED in filepack/consts.py, absent from the
sources; the exact text is immaterial to every claim). -/
def ERROR_MESSAGE_NOT_SUPPORTED : String := "given file type is not supported"

/-- Message of the ValueError raised by get_file_type_extension. -/
def MSG_TYPE_NOT_RECOGNIZED : String := "given file type is not recognized"

/-- Message of the ValueError raised by the ArchiveType enum constructor. -/
def MSG_NOT_A_VALID_ARCHIVE_TYPE : String := "is not a valid ArchiveType"

/-- Message of the ValueError raised by compressed_size when no level is
given (spelling kept from the source). -/
def MSG_LEVEL_MANDATORY : String :=
  "compression_level is manadatory for calculating compressed file size"

/-- The filesystem: a finite association list from locations to contents plus
the tempfile allocation counter. -/
structure FS where
  files : List (Loc × FileData)
  counter : Nat

/-- First-match association lookup. -/
def lookupA : List (Loc × FileData) → Loc → Option FileData
  | [], _ => none
  | e :: rest, q => if e.1 = q then some e.2 else lookupA rest q

/-- Overwrite (or create) the file at a location. -/
def FS.write (fs : FS) (l : Loc) (d : FileData) : FS :=
  ⟨(l, d) :: fs.files.filter (fun e => decide (e.1 ≠ l)), fs.counter⟩

/-- Delete the file at a location if present. -/
def FS.erase (fs : FS) (l : Loc) : FS :=
  ⟨fs.files.filter (fun e => decide (e.1 ≠ l)), fs.counter⟩

/-- Delete every file inside the k-th temporary directory (the cleanup a
tempfile context manager performs on every exit path). -/
def FS.cleanTmp (fs : FS) (k : Nat) : FS :=
  ⟨fs.files.filter (fun e => !(e.1.inTmp k)), fs.counter⟩

/-- Python Path.iterdir: the entries one level below a directory, in
enumeration order of the model. -/
def FS.listDir (fs : FS) (dir : Loc) : List Loc :=
  (fs.files.filter (fun e => decide (e.1.parent? = some dir))).map (fun e => e.1)

/-- Does the location's temporary index (if any) lie below the counter? -/
def Loc.tmpBelow (c : Nat) : Loc → Bool
  | .tmp k _ => k < c
  | .user _ => true

/-- Well-formedness: one entry per location, and every temporary location on
disk was allocated by an earlier tempfile counter value. -/
def FS.Wf (fs : FS) : Prop :=
  (fs.files.map (fun e => e.1)).Nodup ∧
    ∀ e ∈ fs.files, e.1.tmpBelow fs.counter = true

instance (fs : FS) : Decidable fs.Wf := by
  unfold FS.Wf
  exact instDecidableAnd

/-- Backend events recorded while a high-level operation runs.  Only
successful library calls are recorded. -/
inductive Ev where
  | listE : Loc → Ev
  | extractE : Loc → String → Loc → Ev
  | createE : Loc → Ev
  | addE : Loc → String → Ev
  | renameE : Loc → Loc → Ev
  | unlinkE : Loc → Ev
  | writeE : Loc → Ev
deriving DecidableEq, Repr

/-- Does an event modify the file at location p? -/
def mutatesAt (e : Ev) (p : Loc) : Bool :=
  match e with
  | .listE _ => false
  | .extractE _ _ dest => decide (dest = p)
  | .createE a => decide (a = p)
  | .addE a _ => decide (a = p)
  | .renameE src dst => decide (src = p) || decide (dst = p)
  | .unlinkE q => decide (q = p)
  | .writeE q => decide (q = p)

/-- Interpreter state: the filesystem, the remaining fault stream (one Bool
per fallible library call; exhausting the stream means every further call
succeeds) and the event trace. -/
structure St where
  fs : FS
  faults : List Bool
  trace : List Ev

/-- State-passing computations.  Python exceptions do not roll back state, so
the state is returned alongside either outcome. -/
def M (α : Type) := St → Except PyErr α × St

/-- Return. -/
def mret {α : Type} (a : α) : M α := fun s => (.ok a, s)

/-- Raise an exception. -/
def mthrow {α : Type} (e : PyErr) : M α := fun s => (.error e, s)

/-- Sequencing: stop at the first exception. -/
def mbind {α β : Type} (m : M α) (f : α → M β) : M β := fun s =>
  match m s with
  | (.ok a, s₁) => f a s₁
  | (.error e, s₁) => (.error e, s₁)

/-- The reraise_as decorator (src/src/filepack/utils.py): any exception that
escapes the body is rethrown as the given wrapper with the original cause. -/
def reraiseAs {α : Type} (w : PyErr → PyErr) (m : M α) : M α := fun s =>
  match m s with
  | (.ok a, s₁) => (.ok a, s₁)
  | (.error e, s₁) => (.error (w e), s₁)

/-- Read the filesystem. -/
def getFS : M FS := fun s => (.ok s.fs, s)

/-- Apply a filesystem update. -/
def modFS (f : FS → FS) : M Unit := fun s => (.ok (), { s with fs := f s.fs })

/-- Record an event. -/
def emitEv (e : Ev) : M Unit := fun s => (.ok (), { s with trace := s.trace ++ [e] })

/-- Consume the next fault bit; an exhausted stream reports success. -/
def nextFault : M Bool := fun s => (.ok (s.faults.headD true), { s with faults := s.faults.tail })

/-- tempfile.TemporaryDirectory: allocate a fresh directory index, run the
body, and remove the directory's contents on every exit path. -/
def withTmpDir {α : Type} (body : Nat → M α) : M α := fun s =>
  let k := s.fs.counter
  let r := body k { s with fs := { s.fs with counter := k + 1 } }
  (r.1, { r.2 with fs := r.2.fs.cleanTmp k })

/-- tempfile.NamedTemporaryFile: allocate a fresh empty file, run the body,
and delete it on every exit path. -/
def withTmpFile {α : Type} (body : Loc → M α) : M α := fun s =>
  let k := s.fs.counter
  let l := Loc.tmp k ["ntf"]
  let r := body l { s with fs := FS.write { s.fs with counter := k + 1 } l (.plain []) }
  (r.1, { r.2 with fs := r.2.fs.cleanTmp k })

/-- Archive handle: the path plus the container format fixed at construction
(Archive in src/src/filepack/archive.py). -/
structure ArchiveH where
  path : Loc
  type : ArchiveType

/-- Backend open-for-read plus get_members: list the members of the container
at the handle's path.  Fails when the library call faults or when the file is
missing, not a container, or of a different container format. -/
def archList (h : ArchiveH) : M (List (String × FileData)) :=
  mbind nextFault (fun b =>
    if !b then mthrow .ioFault else
    mbind getFS (fun fs =>
      match lookupA fs.files h.path with
      | some (.archiveF t es) =>
        if t = h.type then mbind (emitEv (.listE h.path)) (fun _ => mret es)
        else mthrow .ioFault
      | _ => mthrow .ioFault))

/-- Backend open-for-read plus extract_member: write one member's bytes under
the target directory, preserving the member's relative name.  Duplicate names
resolve to the most recent occurrence, as tarfile and zipfile do. -/
def archExtract (h : ArchiveH) (n : String) (dir : Loc) : M Unit :=
  mbind nextFault (fun b =>
    if !b then mthrow .ioFault else
    mbind getFS (fun fs =>
      match lookupA fs.files h.path with
      | some (.archiveF t es) =>
        if t = h.type then
          match es.reverse.find? (fun nd => nd.1 == n) with
          | some nd =>
            let dest := dir.ljoin (splitSlash n)
            mbind (emitEv (.extractE h.path n dest)) (fun _ => modFS (fun f => f.write dest nd.2))
          | none => mthrow .keyError
        else mthrow .ioFault
      | _ => mthrow .ioFault))

/-- Backend open in write mode: create (or truncate to) an empty container of
the handle's format at the given path. -/
def archCreateW (t : ArchiveType) (p : Loc) : M Unit :=
  mbind nextFault (fun b =>
    if !b then mthrow .ioFault else
    mbind (emitEv (.createE p)) (fun _ => modFS (fun f => f.write p (.archiveF t []))))

/-- Backend open in append mode: keep an existing container, create an empty
one when the path does not exist. -/
def archOpenA (t : ArchiveType) (p : Loc) : M Unit :=
  mbind nextFault (fun b =>
    if !b then mthrow .ioFault else
    mbind getFS (fun fs =>
      match lookupA fs.files p with
      | none => mbind (emitEv (.createE p)) (fun _ => modFS (fun f => f.write p (.archiveF t [])))
      | some (.archiveF t' _) => if t' = t then mret () else mthrow .ioFault
      | some _ => mthrow .ioFault))

/-- Backend add_member: append one entry named by the source file's base name
(directory structure of the source path is not preserved). -/
def archAdd (t : ArchiveType) (p : Loc) (src : Loc) : M Unit :=
  mbind nextFault (fun b =>
    if !b then mthrow .ioFault else
    mbind getFS (fun fs =>
      match lookupA fs.files src with
      | none => mthrow .fileNotFoundError
      | some d =>
        match lookupA fs.files p with
        | some (.archiveF t' es) =>
          if t' = t then
            mbind (emitEv (.addE p src.baseName))
              (fun _ => modFS (fun f => f.write p (.archiveF t (es ++ [(src.baseName, d)]))))
          else mthrow .ioFault
        | _ => mthrow .ioFault))

/-- Path.rename: atomically move src over dst. -/
def renameLoc (src dst : Loc) : M Unit :=
  mbind nextFault (fun b =>
    if !b then mthrow .ioFault else
    mbind getFS (fun fs =>
      match lookupA fs.files src with
      | none => mthrow .fileNotFoundError
      | some d =>
        mbind (emitEv (.renameE src dst))
          (fun _ => modFS (fun f => (f.erase src).write dst d))))

/-- Path.unlink / os.remove: delete a file, failing when it is absent. -/
def unlinkStrict (p : Loc) : M Unit :=
  mbind getFS (fun fs =>
    match lookupA fs.files p with
    | none => mthrow .fileNotFoundError
    | some _ => mbind (emitEv (.unlinkE p)) (fun _ => modFS (fun f => f.erase p)))

/-- Archive.get_members: empty when the path does not exist, otherwise the
backend listing; any failure surfaces as FailedToGetArchiveMembers. -/
def getMembers (h : ArchiveH) : M (List (String × FileData)) :=
  reraiseAs .failedToGetArchiveMembers
    (mbind getFS (fun fs =>
      match lookupA fs.files h.path with
      | none => mret []
      | some _ => archList h))

/-- Archive.get_member: the first member with the given name, none when the
path or the member is absent. -/
def getMember (h : ArchiveH) (n : String) : M (Option (String × FileData)) :=
  reraiseAs .failedToGetArchiveMember
    (mbind getFS (fun fs =>
      match lookupA fs.files h.path with
      | none => mret none
      | some _ => mbind (archList h) (fun es => mret (es.find? (fun nd => nd.1 == n)))))

/-- Archive.member_exist. -/
def memberExist (h : ArchiveH) (n : String) : M Bool :=
  mbind (getMember h n) (fun m => mret m.isSome)

/-- The extraction loop of Archive.remove_member: extract every member whose
name differs from the one being removed into the scratch files directory,
re-opening the container for each. -/
def extractLoop (h : ArchiveH) (name : String) (dir : Loc) : List (String × FileData) → M Unit
  | [] => mret ()
  | nd :: rest =>
    mbind (if nd.1 == name then mret () else archExtract h nd.1 dir)
      (fun _ => extractLoop h name dir rest)

/-- The rebuild loop of Archive.remove_member: add each scratch file to the
new container. -/
def addLoop (t : ArchiveType) (p : Loc) : List Loc → M Unit
  | [] => mret ()
  | l :: rest => mbind (archAdd t p l) (fun _ => addLoop t p rest)

/-- The copy/rebuild phase of Archive.remove_member (steps 2 and 3 of the
protocol), operating entirely inside the k-th temporary directory: extract
every other member into the scratch files directory, then build the new
container at the scratch new_archive path from the scratch directory
listing. -/
def rebuildPhase (h : ArchiveH) (name : String) (k : Nat) : M Unit :=
  mbind (getMembers h) (fun members =>
    mbind (extractLoop h name (Loc.tmp k ["files"]) members) (fun _ =>
      mbind (archCreateW h.type (Loc.tmp k ["new_archive"])) (fun _ =>
        mbind getFS (fun fs =>
          addLoop h.type (Loc.tmp k ["new_archive"]) (fs.listDir (Loc.tmp k ["files"]))))))

/-- Archive.remove_member: whole-archive reconstruction.  Fail when the member
is absent; run the copy/rebuild phase inside a temporary directory; atomically
rename the newly built container over the original. -/
def removeMember (h : ArchiveH) (name : String) : M Unit :=
  reraiseAs .failedToRemoveArchiveMember
    (mbind (memberExist h name) (fun ex =>
      if !ex then mthrow .archiveMemberDoesNotExist else
      withTmpDir (fun k =>
        mbind (rebuildPhase h name k) (fun _ =>
          renameLoc (Loc.tmp k ["new_archive"]) h.path))))

/-- Archive.extract_member: pre-check the member listing, extract, and when
in_place remove the member afterwards. -/
def extractMember (h : ArchiveH) (name : String) (targetDir : Loc) (inPlace : Bool) : M Unit :=
  reraiseAs .failedToExtractArchiveMember
    (mbind (getMember h name) (fun m =>
      match m with
      | none => mthrow .archiveMemberDoesNotExist
      | some _ =>
        mbind (archExtract h name targetDir)
          (fun _ => if inPlace then removeMember h name else mret ())))

/-- Archive.add_member: fail when the source is absent, open in append mode,
write one member, and when in_place delete the source afterwards. -/
def addMember (h : ArchiveH) (memberPath : Loc) (inPlace : Bool) : M Unit :=
  reraiseAs .failedToAddNewMemberToArchive
    (mbind getFS (fun fs =>
      match lookupA fs.files memberPath with
      | none => mthrow .fileNotFoundError
      | some _ =>
        mbind (archOpenA h.type h.path) (fun _ =>
          mbind (archAdd h.type h.path memberPath)
            (fun _ => if inPlace then unlinkStrict memberPath else mret ()))))

/-- Archive.__init__: for a non-existent path, infer the container format
from the filename suffix; for an existing path, classify by content sniffing
only.  Both failure modes raise ValueError (the suffix branch via the
try/except around the enum constructor, the sniff branch via
get_file_type_extension or the bare enum constructor). -/
def archiveInit (fs : FS) (l : Loc) : Except PyErr ArchiveH :=
  match lookupA fs.files l with
  | none =>
    match ArchiveType.ofExt? (lstripDot (pySuffix l.baseName)) with
    | some t => .ok ⟨l, t⟩
    | none => .error (.valueError ERROR_MESSAGE_NOT_SUPPORTED)
  | some d =>
    match sniffExt d with
    | none => .error (.valueError MSG_TYPE_NOT_RECOGNIZED)
    | some e =>
      match ArchiveType.ofExt? e with
      | some t => .ok ⟨l, t⟩
      | none => .error (.valueError MSG_NOT_A_VALID_ARCHIVE_TYPE)

/-- Compression handle: just the (mutable) path
(Compression in src/src/filepack/compression.py). -/
structure CompressionH where
  path : Loc

/-- Compression.__init__: the path must exist. -/
def compressionInit (fs : FS) (l : Loc) : Except PyErr CompressionH :=
  match lookupA fs.files l with
  | none => .error .fileNotFoundError
  | some _ => .ok ⟨l⟩

/-- FilePack.__init__: attempt both constructors; aggregate the two failures
when both fail.  (Archive.__init__ only ever raises ValueError and
Compression.__init__ only FileNotFoundError, which are exactly the classes
the except clauses catch.) -/
def filePackInit (fs : FS) (l : Loc) : Except PyErr (Option ArchiveH × Option CompressionH) :=
  match archiveInit fs l, compressionInit fs l with
  | .error e₁, .error e₂ => .error (.exceptionGroup e₁ e₂)
  | a, c => .ok (a.toOption, c.toOption)

/-- Compression._get_compression_client: parse the algorithm string through
the CompressionType enum; any failure becomes CompressionTypeNotSupported. -/
def getCompressionClient (alg : String) : Except PyErr CompressionType :=
  match CompressionType.ofExt? alg with
  | some c => .ok c
  | none => .error .compressionTypeNotSupported

/-- Compression.is_compressed: true iff the content-sniffed extension equals
the requested algorithm string; an unrecognized content type (ValueError from
the sniffer) yields false.  Sniffing a missing path raises
FileNotFoundError, which the except ValueError clause does not catch. -/
def isCompressed (fs : FS) (p : Loc) (alg : String) : Except PyErr Bool :=
  match lookupA fs.files p with
  | none => .error .fileNotFoundError
  | some d => .ok (sniffExt d == some alg)

/-- Codec stream write: open the codec at the target in wb mode at the given
level and stream the source file through it. -/
def codecWrite (c : CompressionType) (target : Loc) (level : Option Nat) (src : FileData) : M Unit :=
  mbind nextFault (fun b =>
    if !b then mthrow .ioFault else
    mbind (emitEv (.writeE target)) (fun _ => modFS (fun f => f.write target (.compressedF c level src))))

/-- Codec stream read: open the compressed file with the codec and stream the
decoded payload into the target file.  A stream that was not produced by this
codec fails inside the library. -/
def codecRead (c : CompressionType) (src : FileData) (target : Loc) : M Unit :=
  mbind nextFault (fun b =>
    if !b then mthrow .ioFault else
    match src with
    | .compressedF c' _ inner =>
      if c' = c then mbind (emitEv (.writeE target)) (fun _ => modFS (fun f => f.write target inner))
      else mthrow .ioFault
    | _ => mthrow .ioFault)

/-- Compression.compress: refuse when already compressed under the requested
algorithm, resolve the target (default: the name with the algorithm string
appended as a suffix), stream through the codec, and when in_place delete the
source and re-point the handle at the target.  Returns the handle's current
path. -/
def compress (h : CompressionH) (alg : String) (target? : Option Loc) (inPlace : Bool)
    (level : Nat) : M (Loc × CompressionH) :=
  reraiseAs .failedToCompressFile
    (mbind getFS (fun fs =>
      match isCompressed fs h.path alg with
      | .error e => mthrow e
      | .ok true => mthrow .fileAlreadyCompressed
      | .ok false =>
        let target := target?.getD (h.path.withName (h.path.baseName ++ "." ++ alg))
        match getCompressionClient alg with
        | .error e => mthrow e
        | .ok c =>
          mbind getFS (fun fs₂ =>
            match lookupA fs₂.files h.path with
            | none => mthrow .fileNotFoundError
            | some src =>
              mbind (codecWrite c target (some level) src) (fun _ =>
                if inPlace then
                  mbind (unlinkStrict h.path) (fun _ => mret (target, ⟨target⟩))
                else mret (h.path, ⟨h.path⟩)))))

/-- Compression.decompress: refuse when not compressed under the requested
algorithm, resolve the target (default: the name with one suffix level
stripped), stream the payload out, and when in_place delete the compressed
file and re-point the handle.  Returns the handle's current path. -/
def decompress (h : CompressionH) (alg : String) (target? : Option Loc) (inPlace : Bool) :
    M (Loc × CompressionH) :=
  reraiseAs .failedToDecompressFile
    (mbind getFS (fun fs =>
      match isCompressed fs h.path alg with
      | .error e => mthrow e
      | .ok false => mthrow .fileNotCompressed
      | .ok true =>
        let target := target?.getD (h.path.withName (pyStem h.path.baseName))
        match getCompressionClient alg with
        | .error e => mthrow e
        | .ok c =>
          mbind getFS (fun fs₂ =>
            match lookupA fs₂.files h.path with
            | none => mthrow .fileNotFoundError
            | some src =>
              mbind (codecRead c src target) (fun _ =>
                if inPlace then
                  mbind (unlinkStrict h.path) (fun _ => mret (target, ⟨target⟩))
                else mret (h.path, ⟨h.path⟩)))))

/-- On-disk byte size reported by stat.  A plain file is stored as its bytes;
the byte-level encodings of archives and compressed streams are produced by
the external container and codec libraries, so their sizes enter the model
through the parameter. -/
def stSize (enc : FileData → Nat) : FileData → Nat
  | .plain b => b.length
  | d => enc d

/-- Compression.uncompressed_size: the file's own size when it is not
compressed under the algorithm; otherwise a full decompression into a scratch
file, measuring that. -/
def uncompressedSize (enc : FileData → Nat) (h : CompressionH) (alg : String) : M Nat :=
  reraiseAs .failedToGetUncompressedSize
    (mbind getFS (fun fs =>
      match isCompressed fs h.path alg with
      | .error e => mthrow e
      | .ok false =>
        (match lookupA fs.files h.path with
         | none => mthrow .fileNotFoundError
         | some d => mret (stSize enc d))
      | .ok true =>
        withTmpFile (fun tf =>
          mbind (decompress h alg (some tf) false) (fun _ =>
            mbind getFS (fun fs₂ =>
              match lookupA fs₂.files tf with
              | none => mthrow .fileNotFoundError
              | some d => mret (stSize enc d))))))

/-- Compression.compressed_size: the file's own size when already compressed
under the algorithm; otherwise the level is mandatory and a full trial
compression into a scratch file is measured. -/
def compressedSize (enc : FileData → Nat) (h : CompressionH) (alg : String)
    (level : Option Nat) : M Nat :=
  reraiseAs .failedToGetCompressedSize
    (mbind getFS (fun fs =>
      match isCompressed fs h.path alg with
      | .error e => mthrow e
      | .ok true =>
        (match lookupA fs.files h.path with
         | none => mthrow .fileNotFoundError
         | some d => mret (stSize enc d))
      | .ok false =>
        match level with
        | none => mthrow (.valueError MSG_LEVEL_MANDATORY)
        | some lv =>
          withTmpFile (fun tf =>
            mbind (compress h alg (some tf) false lv) (fun _ =>
              mbind getFS (fun fs₂ =>
                match lookupA fs₂.files tf with
                | none => mthrow .fileNotFoundError
                | some d => mret (stSize enc d))))))

/-- Round half to even on rationals (the ideal semantics of Python round). -/
def rhe (q : ℚ) : ℤ :=
  if q - ⌊q⌋ < 1 / 2 then ⌊q⌋
  else if q - ⌊q⌋ > 1 / 2 then ⌊q⌋ + 1
  else if 2 ∣ ⌊q⌋ then ⌊q⌋ else ⌊q⌋ + 1

/-- Python round(x, 2) over the exact rational value. -/
def pyRound2 (q : ℚ) : ℚ := (rhe (q * 100) : ℚ) / 100

/-- Compression.compression_ratio: uncompressed size over compressed size,
rounded to two decimal places.  Note the source passes no compression level
to compressed_size.  The numeric value is modelled exactly over the
rationals; the final "X:1" string rendering of the Python float is
peripheral formatting and is not modelled. -/
def compressionRatioFn (enc : FileData → Nat) (h : CompressionH) (alg : String) : M ℚ :=
  mbind (uncompressedSize enc h alg) (fun u =>
    mbind (compressedSize enc h alg none) (fun c =>
      mret (pyRound2 ((u : ℚ) / (c : ℚ)))))

/-- Arguments a codec backend's open passes to the underlying library call
(mode and the level argument of the library function). -/
structure CodecOpenArgs where
  mode : String
  levelArg : Option Nat
deriving DecidableEq, Repr

/-- XZCompression.open (src/src/filepack/compressions/xz.py): calls
lzma.open(filename, mode, preset=compression_level); the caller-supplied
level is forwarded as the preset. -/
def XZCompression.openArgs (mode : String) (compression_level : Option Nat) : CodecOpenArgs :=
  { mode := mode, levelArg := compression_level }

/-- GzipCompression.open: gzip.open(filename, mode,
compresslevel=compression_level), default level 9. -/
def GzipCompression.openArgs (mode : String) (compression_level : Option Nat) : CodecOpenArgs :=
  { mode := mode, levelArg := compression_level }

/-- BzipCompression.open: bz2.open(filename, mode,
compresslevel=compression_level), default level 9. -/
def BzipCompression.openArgs (mode : String) (compression_level : Option Nat) : CodecOpenArgs :=
  { mode := mode, levelArg := compression_level }

/-- LZ4Compression.open: lz4.frame.open(filename, mode,
compression_level=compression_level), default level 9. -/
def LZ4Compression.openArgs (mode : String) (compression_level : Option Nat) : CodecOpenArgs :=
  { mode := mode, levelArg := compression_level }

/-- A plain base filename: splitting on the path separator yields the name
itself (no directory structure), and the name is nonempty. -/
def PlainName (n : String) : Prop :=
  splitSlash n = [n] ∧ n ≠ ""

instance (n : String) : Decidable (PlainName n) := by
  unfold PlainName
  exact instDecidableAnd

/-- The member data the backend serves for a name: the most recent occurrence
in the member list. -/
def entryData (es : List (String × FileData)) (n : String) : Option FileData :=
  (es.reverse.find? (fun nd => nd.1 == n)).map (fun nd => nd.2)

/-- Names processed by the remove_member extraction loop: every member name
other than the one being removed. -/
def procNames (members : List (String × FileData)) (name : String) : List String :=
  (members.filter (fun nd => decide (nd.1 ≠ name))).map (fun nd => nd.1)

/-- A computation that reads the filesystem but never modifies it: the final
filesystem is the initial one and no recorded event mutates any location. -/
def ReadOnlyM {α : Type} (m : M α) : Prop :=
  ∀ s : St, (m s).2.fs = s.fs ∧
    ∀ q : Loc, ((m s).2.trace).filter (fun e => mutatesAt e q) =
      s.trace.filter (fun e => mutatesAt e q)

/-- A computation whose filesystem effects stay inside the k-th temporary
directory: the tempfile counter is unchanged, every location outside the
directory keeps its content, and every recorded mutation targets the
directory. -/
def OnlyTmpK {α : Type} (k : Nat) (m : M α) : Prop :=
  ∀ s : St, (m s).2.fs.counter = s.fs.counter ∧
    (∀ q : Loc, q.inTmp k = false →
      lookupA (m s).2.fs.files q = lookupA s.fs.files q) ∧
    (∀ q : Loc, q.inTmp k = false →
      ((m s).2.trace).filter (fun e => mutatesAt e q) =
        s.trace.filter (fun e => mutatesAt e q))

/-
Lemma layer: association-list, path and loop lemmas, then the claim theorems.
-/

theorem lookupA_filterKey (keyP : Loc → Bool) (xs : List (Loc × FileData)) (q : Loc) :
    lookupA (xs.filter (fun e => keyP e.1)) q = if keyP q then lookupA xs q else none := by
  induction xs with
  | nil => simp [lookupA]
  | cons e rest ih =>
    by_cases hk : keyP e.1
    · by_cases hq : e.1 = q
      · subst hq
        simp [lookupA, hk]
      · simp [lookupA, hk, hq, ih]
    · by_cases hq : e.1 = q
      · subst hq
        simp only [List.filter_cons, hk]
        simp [ih, lookupA, hk]
      · simp only [List.filter_cons, hk]
        simp [ih, lookupA, hq]

theorem lookupA_write_self (fs : FS) (l : Loc) (d : FileData) :
    lookupA (fs.write l d).files l = some d := by
  simp [FS.write, lookupA]

theorem lookupA_write_ne (fs : FS) (l : Loc) (d : FileData) (q : Loc) (h : q ≠ l) :
    lookupA (fs.write l d).files q = lookupA fs.files q := by
  have hkey := lookupA_filterKey (fun x => decide (x ≠ l)) fs.files q
  simp only [FS.write, lookupA]
  rw [if_neg (fun he : l = q => h he.symm)]
  simp only [hkey]
  simp [h]

theorem lookupA_erase_ne (fs : FS) (l : Loc) (q : Loc) (h : q ≠ l) :
    lookupA (fs.erase l).files q = lookupA fs.files q := by
  have hkey := lookupA_filterKey (fun x => decide (x ≠ l)) fs.files q
  simp only [FS.erase]
  simp only [hkey]
  simp [h]

theorem lookupA_cleanTmp (fs : FS) (k : Nat) (q : Loc) (h : q.inTmp k = false) :
    lookupA (fs.cleanTmp k).files q = lookupA fs.files q := by
  have hkey := lookupA_filterKey (fun x => !(x.inTmp k)) fs.files q
  simp only [FS.cleanTmp]
  simp only [hkey]
  simp [h]

theorem lookupA_ne_none_iff (xs : List (Loc × FileData)) (q : Loc) :
    lookupA xs q ≠ none ↔ ∃ d, (q, d) ∈ xs := by
  induction xs with
  | nil => simp [lookupA]
  | cons e rest ih =>
    by_cases hq : e.1 = q
    · subst hq
      simp [lookupA]
      exact ⟨e.2, Or.inl rfl⟩
    · simp only [lookupA, if_neg hq, List.mem_cons, ih]
      constructor
      · intro ⟨d, hd⟩
        exact ⟨d, Or.inr hd⟩
      · intro ⟨d, hd⟩
        rcases hd with hd | hd
        · exact absurd (congrArg Prod.fst hd).symm hq
        · exact ⟨d, hd⟩

theorem mem_listDir_iff (fs : FS) (dir q : Loc) :
    q ∈ fs.listDir dir ↔ (q.parent? = some dir ∧ lookupA fs.files q ≠ none) := by
  simp only [FS.listDir, List.mem_map, List.mem_filter, lookupA_ne_none_iff]
  constructor
  · intro ⟨e, ⟨hmem, hpar⟩, hq⟩
    subst hq
    exact ⟨of_decide_eq_true hpar, ⟨e.2, hmem⟩⟩
  · intro ⟨hpar, d, hd⟩
    exact ⟨(q, d), ⟨hd, decide_eq_true hpar⟩, rfl⟩

theorem counter_write (fs : FS) (l : Loc) (d : FileData) : (fs.write l d).counter = fs.counter := rfl

theorem counter_erase (fs : FS) (l : Loc) : (fs.erase l).counter = fs.counter := rfl

theorem counter_cleanTmp (fs : FS) (k : Nat) : (fs.cleanTmp k).counter = fs.counter := rfl

@[simp]
theorem inTmp_user (k : Nat) (xs : List String) : (Loc.user xs).inTmp k = false := rfl

@[simp]
theorem tmp_ne_user (k : Nat) (r xs : List String) : Loc.tmp k r ≠ Loc.user xs := by
  intro h
  exact Loc.noConfusion h

@[simp]
theorem user_ne_tmp (k : Nat) (r xs : List String) : Loc.user xs ≠ Loc.tmp k r := by
  intro h
  exact Loc.noConfusion h

theorem inTmp_tmp_self (k : Nat) (r : List String) : (Loc.tmp k r).inTmp k = true := by
  simp [Loc.inTmp]

theorem parent?_filesDir_iff (k : Nat) (q : Loc) :
    q.parent? = some (Loc.tmp k ["files"]) ↔ ∃ x, q = Loc.tmp k ["files", x] := by
  cases q with
  | user xs =>
    cases xs with
    | nil => simp [Loc.parent?]
    | cons x rest => simp [Loc.parent?]
  | tmp j xs =>
    cases xs with
    | nil => simp [Loc.parent?]
    | cons x rest =>
      cases rest with
      | nil => simp [Loc.parent?, List.dropLast]
      | cons y rest₂ =>
        cases rest₂ with
        | nil =>
          simp only [Loc.parent?, List.dropLast, Option.some.injEq, Loc.tmp.injEq,
            List.cons.injEq, and_true]
          aesop
        | cons z rest₃ =>
          simp [Loc.parent?, List.dropLast, Loc.tmp.injEq]

theorem baseName_tmp_pair (k : Nat) (a x : String) : (Loc.tmp k [a, x]).baseName = x := rfl

theorem ljoin_tmp_single (k : Nat) (a n : String) :
    (Loc.tmp k [a]).ljoin [n] = Loc.tmp k [a, n] := rfl

theorem ljoin_user_single (td : List String) (n : String) :
    (Loc.user td).ljoin [n] = Loc.user (td ++ [n]) := rfl

theorem find?_fst_isSome_iff (es : List (String × FileData)) (n : String) :
    (es.find? (fun nd => nd.1 == n)).isSome ↔ n ∈ es.map Prod.fst := by
  rw [List.find?_isSome]
  simp only [List.mem_map, beq_iff_eq]

theorem find?_fst_eq_none_iff (es : List (String × FileData)) (n : String) :
    es.find? (fun nd => nd.1 == n) = none ↔ n ∉ es.map Prod.fst := by
  rw [List.find?_eq_none]
  simp only [List.mem_map, beq_iff_eq]
  aesop

theorem entryData_of_mem (es : List (String × FileData)) (n : String)
    (h : n ∈ es.map Prod.fst) :
    ∃ d, es.reverse.find? (fun nd => nd.1 == n) = some (n, d) ∧ entryData es n = some d := by
  have hs : (es.reverse.find? (fun nd => nd.1 == n)).isSome := by
    rw [find?_fst_isSome_iff]
    simpa [List.map_reverse] using h
  obtain ⟨nd, hnd⟩ := Option.isSome_iff_exists.mp hs
  have hp := List.find?_some hnd
  have hfst : nd.1 = n := by simpa using hp
  have hnd' : nd = (n, nd.2) := by
    rw [← hfst]
  refine ⟨nd.2, ?_, ?_⟩
  · rw [hnd, ← hnd']
  · simp [entryData, hnd]

@[simp]
theorem mutatesAt_listE (a q : Loc) : mutatesAt (.listE a) q = false := rfl

theorem readOnlyM_mret {α : Type} (a : α) : ReadOnlyM (mret a) :=
  fun _ => ⟨rfl, fun _ => rfl⟩

theorem readOnlyM_mthrow {α : Type} (e : PyErr) : ReadOnlyM (mthrow (α := α) e) :=
  fun _ => ⟨rfl, fun _ => rfl⟩

theorem readOnlyM_nextFault : ReadOnlyM nextFault :=
  fun _ => ⟨rfl, fun _ => rfl⟩

theorem readOnlyM_getFS : ReadOnlyM getFS :=
  fun _ => ⟨rfl, fun _ => rfl⟩

theorem readOnlyM_emit_listE (a : Loc) : ReadOnlyM (emitEv (.listE a)) := by
  intro s
  refine ⟨rfl, fun q => ?_⟩
  simp [emitEv]

theorem readOnlyM_mbind {α β : Type} (m : M α) (f : α → M β)
    (hm : ReadOnlyM m) (hf : ∀ a, ReadOnlyM (f a)) : ReadOnlyM (mbind m f) := by
  intro s
  obtain ⟨hfs, htr⟩ := hm s
  unfold mbind
  rcases hms : m s with ⟨r, s₁⟩
  rw [hms] at hfs htr
  simp only at hfs htr
  cases r with
  | error e => exact ⟨hfs, htr⟩
  | ok a =>
    obtain ⟨hfs₂, htr₂⟩ := hf a s₁
    exact ⟨by rw [hfs₂, hfs], fun q => by rw [htr₂ q, htr q]⟩

theorem readOnlyM_reraiseAs {α : Type} (w : PyErr → PyErr) (m : M α)
    (hm : ReadOnlyM m) : ReadOnlyM (reraiseAs w m) := by
  intro s
  obtain ⟨hfs, htr⟩ := hm s
  unfold reraiseAs
  rcases hms : m s with ⟨r, s₁⟩
  rw [hms] at hfs htr
  simp only at hfs htr
  cases r with
  | error e => exact ⟨hfs, htr⟩
  | ok a => exact ⟨hfs, htr⟩

theorem readOnlyM_archList (h : ArchiveH) : ReadOnlyM (archList h) := by
  unfold archList
  refine readOnlyM_mbind _ _ readOnlyM_nextFault (fun b => ?_)
  cases b with
  | false => exact readOnlyM_mthrow _
  | true =>
    simp only [Bool.not_true, Bool.false_eq_true, if_false]
    refine readOnlyM_mbind _ _ readOnlyM_getFS (fun fs => ?_)
    rcases lookupA fs.files h.path with _ | d
    · exact readOnlyM_mthrow _
    · cases d with
      | plain b => exact readOnlyM_mthrow _
      | archiveF t es =>
        by_cases ht : t = h.type
        · simp only [ht, if_true]
          exact readOnlyM_mbind _ _ (readOnlyM_emit_listE _) (fun _ => readOnlyM_mret _)
        · simp only [if_neg ht]
          exact readOnlyM_mthrow _
      | compressedF c lv b => exact readOnlyM_mthrow _

theorem readOnlyM_getMembers (h : ArchiveH) : ReadOnlyM (getMembers h) := by
  unfold getMembers
  refine readOnlyM_reraiseAs _ _ ?_
  refine readOnlyM_mbind _ _ readOnlyM_getFS (fun fs => ?_)
  rcases lookupA fs.files h.path with _ | d
  · exact readOnlyM_mret _
  · exact readOnlyM_archList h

theorem readOnlyM_getMember (h : ArchiveH) (n : String) : ReadOnlyM (getMember h n) := by
  unfold getMember
  refine readOnlyM_reraiseAs _ _ ?_
  refine readOnlyM_mbind _ _ readOnlyM_getFS (fun fs => ?_)
  rcases lookupA fs.files h.path with _ | d
  · exact readOnlyM_mret _
  · exact readOnlyM_mbind _ _ (readOnlyM_archList h) (fun es => readOnlyM_mret _)

theorem readOnlyM_memberExist (h : ArchiveH) (n : String) : ReadOnlyM (memberExist h n) := by
  unfold memberExist
  exact readOnlyM_mbind _ _ (readOnlyM_getMember h n) (fun m => readOnlyM_mret _)

theorem onlyTmpK_of_readOnly {α : Type} (k : Nat) (m : M α) (hm : ReadOnlyM m) :
    OnlyTmpK k m := by
  intro s
  obtain ⟨hfs, htr⟩ := hm s
  exact ⟨by rw [hfs], fun q _ => by rw [hfs], fun q _ => htr q⟩

theorem onlyTmpK_mret {α : Type} (k : Nat) (a : α) : OnlyTmpK k (mret a) :=
  onlyTmpK_of_readOnly k _ (readOnlyM_mret a)

theorem onlyTmpK_mthrow {α : Type} (k : Nat) (e : PyErr) : OnlyTmpK k (mthrow (α := α) e) :=
  onlyTmpK_of_readOnly k _ (readOnlyM_mthrow e)

theorem onlyTmpK_mbind {α β : Type} (k : Nat) (m : M α) (f : α → M β)
    (hm : OnlyTmpK k m) (hf : ∀ a, OnlyTmpK k (f a)) : OnlyTmpK k (mbind m f) := by
  intro s
  obtain ⟨hc, hlk, htr⟩ := hm s
  unfold mbind
  rcases hms : m s with ⟨r, s₁⟩
  rw [hms] at hc hlk htr
  simp only at hc hlk htr
  cases r with
  | error e => exact ⟨hc, hlk, htr⟩
  | ok a =>
    obtain ⟨hc₂, hlk₂, htr₂⟩ := hf a s₁
    exact ⟨by rw [hc₂, hc], fun q hq => by rw [hlk₂ q hq, hlk q hq],
      fun q hq => by rw [htr₂ q hq, htr q hq]⟩

theorem inTmp_ljoin_tmp (k : Nat) (rest l : List String) :
    ((Loc.tmp k rest).ljoin l).inTmp k = true := by
  simp [Loc.ljoin, Loc.inTmp]

theorem onlyTmpK_emit_modWrite (k : Nat) (e : Ev) (dest : Loc) (d : FileData)
    (hdest : dest.inTmp k = true)
    (he : ∀ q : Loc, q.inTmp k = false → mutatesAt e q = false) :
    OnlyTmpK k (mbind (emitEv e) (fun _ => modFS (fun f => f.write dest d))) := by
  intro s
  refine ⟨rfl, fun q hq => ?_, fun q hq => ?_⟩
  · have hne : q ≠ dest := by
      intro h
      rw [h, hdest] at hq
      exact Bool.noConfusion hq
    simpa [mbind, emitEv, modFS] using lookupA_write_ne s.fs dest d q hne
  · simp [mbind, emitEv, modFS, he q hq]

theorem onlyTmpK_archExtract (k : Nat) (h : ArchiveH) (n : String) (rest : List String) :
    OnlyTmpK k (archExtract h n (Loc.tmp k rest)) := by
  unfold archExtract
  refine onlyTmpK_mbind k _ _ (onlyTmpK_of_readOnly k _ readOnlyM_nextFault) (fun b => ?_)
  cases b with
  | false => exact onlyTmpK_mthrow k _
  | true =>
    simp only [Bool.not_true, Bool.false_eq_true, if_false]
    refine onlyTmpK_mbind k _ _ (onlyTmpK_of_readOnly k _ readOnlyM_getFS) (fun fs => ?_)
    rcases lookupA fs.files h.path with _ | d
    · exact onlyTmpK_mthrow k _
    · cases d with
      | plain b => exact onlyTmpK_mthrow k _
      | archiveF t es =>
        by_cases ht : t = h.type
        · simp only [ht, if_true]
          rcases hf : es.reverse.find? (fun nd => nd.1 == n) with _ | nd
          · simp only [hf]
            exact onlyTmpK_mthrow k _
          · simp only [hf]
            refine onlyTmpK_emit_modWrite k _ _ _ (inTmp_ljoin_tmp k rest _) (fun q hq => ?_)
            have hne : (Loc.tmp k rest).ljoin (splitSlash n) ≠ q := by
              intro hcontra
              rw [← hcontra, inTmp_ljoin_tmp k rest _] at hq
              exact Bool.noConfusion hq
            simp [mutatesAt, hne]
        · simp only [if_neg ht]
          exact onlyTmpK_mthrow k _
      | compressedF c lv b => exact onlyTmpK_mthrow k _

theorem onlyTmpK_archCreateW (k : Nat) (t : ArchiveType) (rest : List String) :
    OnlyTmpK k (archCreateW t (Loc.tmp k rest)) := by
  unfold archCreateW
  refine onlyTmpK_mbind k _ _ (onlyTmpK_of_readOnly k _ readOnlyM_nextFault) (fun b => ?_)
  cases b with
  | false => exact onlyTmpK_mthrow k _
  | true =>
    simp only [Bool.not_true, Bool.false_eq_true, if_false]
    refine onlyTmpK_emit_modWrite k _ _ _ (inTmp_tmp_self k rest) (fun q hq => ?_)
    have hne : Loc.tmp k rest ≠ q := by
      intro hcontra
      rw [← hcontra, inTmp_tmp_self] at hq
      exact Bool.noConfusion hq
    simp [mutatesAt, hne]

theorem onlyTmpK_archAdd (k : Nat) (t : ArchiveType) (rest : List String) (src : Loc) :
    OnlyTmpK k (archAdd t (Loc.tmp k rest) src) := by
  unfold archAdd
  refine onlyTmpK_mbind k _ _ (onlyTmpK_of_readOnly k _ readOnlyM_nextFault) (fun b => ?_)
  cases b with
  | false => exact onlyTmpK_mthrow k _
  | true =>
    simp only [Bool.not_true, Bool.false_eq_true, if_false]
    refine onlyTmpK_mbind k _ _ (onlyTmpK_of_readOnly k _ readOnlyM_getFS) (fun fs => ?_)
    rcases lookupA fs.files src with _ | d
    · exact onlyTmpK_mthrow k _
    · rcases lookupA fs.files (Loc.tmp k rest) with _ | d₂
      · exact onlyTmpK_mthrow k _
      · cases d₂ with
        | plain b => exact onlyTmpK_mthrow k _
        | archiveF t' es =>
          by_cases ht : t' = t
          · simp only [ht, if_true]
            refine onlyTmpK_emit_modWrite k _ _ _ (inTmp_tmp_self k rest) (fun q hq => ?_)
            have hne : Loc.tmp k rest ≠ q := by
              intro hcontra
              rw [← hcontra, inTmp_tmp_self] at hq
              exact Bool.noConfusion hq
            simp [mutatesAt, hne]
          · simp only [if_neg ht]
            exact onlyTmpK_mthrow k _
        | compressedF c lv b => exact onlyTmpK_mthrow k _

theorem onlyTmpK_extractLoop (k : Nat) (h : ArchiveH) (name : String) (rest : List String)
    (members : List (String × FileData)) :
    OnlyTmpK k (extractLoop h name (Loc.tmp k rest) members) := by
  induction members with
  | nil => exact onlyTmpK_mret k ()
  | cons nd tl ih =>
    unfold extractLoop
    refine onlyTmpK_mbind k _ _ ?_ (fun _ => ih)
    by_cases hn : nd.1 == name
    · simp only [hn, if_true]
      exact onlyTmpK_mret k ()
    · simp only [hn]
      simp only [Bool.false_eq_true, if_false]
      exact onlyTmpK_archExtract k h nd.1 rest

theorem onlyTmpK_addLoop (k : Nat) (t : ArchiveType) (rest : List String) (L : List Loc) :
    OnlyTmpK k (addLoop t (Loc.tmp k rest) L) := by
  induction L with
  | nil => exact onlyTmpK_mret k ()
  | cons l tl ih =>
    unfold addLoop
    exact onlyTmpK_mbind k _ _ (onlyTmpK_archAdd k t rest l) (fun _ => ih)

theorem onlyTmpK_rebuildPhase (k : Nat) (h : ArchiveH) (name : String) :
    OnlyTmpK k (rebuildPhase h name k) := by
  unfold rebuildPhase
  refine onlyTmpK_mbind k _ _ (onlyTmpK_of_readOnly k _ (readOnlyM_getMembers h)) (fun members => ?_)
  refine onlyTmpK_mbind k _ _ (onlyTmpK_extractLoop k h name _ members) (fun _ => ?_)
  refine onlyTmpK_mbind k _ _ (onlyTmpK_archCreateW k h.type _) (fun _ => ?_)
  refine onlyTmpK_mbind k _ _ (onlyTmpK_of_readOnly k _ readOnlyM_getFS) (fun fs => ?_)
  exact onlyTmpK_addLoop k h.type _ _

theorem archExtract_ok_run (pp : List String) (t : ArchiveType) (k : Nat) (n : String)
    (es : List (String × FileData)) (d₀ : FileData) (s : St)
    (hf : s.faults = [])
    (hlk : lookupA s.fs.files (.user pp) = some (.archiveF t es))
    (hfind : es.reverse.find? (fun nd => nd.1 == n) = some (n, d₀))
    (hplain : splitSlash n = [n]) :
    archExtract ⟨.user pp, t⟩ n (Loc.tmp k ["files"]) s =
      (.ok (), { fs := s.fs.write (Loc.tmp k ["files", n]) d₀, faults := [],
                 trace := s.trace ++ [.extractE (.user pp) n (Loc.tmp k ["files", n])] }) := by
  simp only [archExtract, mbind, nextFault, hf, List.headD_nil, Bool.not_true,
    Bool.false_eq_true, if_false, getFS, hlk, if_pos rfl, hfind, hplain,
    ljoin_tmp_single, emitEv, modFS, List.tail_nil]
  simp [mbind, emitEv, modFS, mret]

theorem archCreateW_ok_run (t : ArchiveType) (p : Loc) (s : St) (hf : s.faults = []) :
    archCreateW t p s =
      (.ok (), { fs := s.fs.write p (.archiveF t []), faults := [],
                 trace := s.trace ++ [.createE p] }) := by
  simp only [archCreateW, mbind, nextFault, hf, List.headD_nil, Bool.not_true,
    Bool.false_eq_true, if_false, emitEv, modFS, List.tail_nil]

theorem archAdd_ok_run (t : ArchiveType) (p src : Loc) (d : FileData)
    (es : List (String × FileData)) (s : St) (hf : s.faults = [])
    (hsrc : lookupA s.fs.files src = some d)
    (hp : lookupA s.fs.files p = some (.archiveF t es)) :
    archAdd t p src s =
      (.ok (), { fs := s.fs.write p (.archiveF t (es ++ [(src.baseName, d)])), faults := [],
                 trace := s.trace ++ [.addE p src.baseName] }) := by
  simp only [archAdd, mbind, nextFault, hf, List.headD_nil, Bool.not_true,
    Bool.false_eq_true, if_false, getFS, hsrc, hp, if_pos rfl, emitEv, modFS, List.tail_nil]
  simp [mbind, emitEv, modFS, mret]

theorem renameLoc_ok_run (src dst : Loc) (d : FileData) (s : St) (hf : s.faults = [])
    (hsrc : lookupA s.fs.files src = some d) :
    renameLoc src dst s =
      (.ok (), { fs := (s.fs.erase src).write dst d, faults := [],
                 trace := s.trace ++ [.renameE src dst] }) := by
  simp only [renameLoc, mbind, nextFault, hf, List.headD_nil, Bool.not_true,
    Bool.false_eq_true, if_false, getFS, hsrc, emitEv, modFS, List.tail_nil]

theorem getMembers_ok_run (pp : List String) (t : ArchiveType)
    (es : List (String × FileData)) (s : St) (hf : s.faults = [])
    (hlk : lookupA s.fs.files (.user pp) = some (.archiveF t es)) :
    getMembers ⟨.user pp, t⟩ s =
      (.ok es, { fs := s.fs, faults := [], trace := s.trace ++ [.listE (.user pp)] }) := by
  simp only [getMembers, reraiseAs, mbind, getFS, hlk, archList, nextFault, hf,
    List.headD_nil, Bool.not_true, Bool.false_eq_true, if_false, if_pos rfl,
    emitEv, mret, List.tail_nil]
  simp [mbind, emitEv, mret]

theorem getMember_ok_run (pp : List String) (t : ArchiveType) (n : String)
    (es : List (String × FileData)) (s : St) (hf : s.faults = [])
    (hlk : lookupA s.fs.files (.user pp) = some (.archiveF t es)) :
    getMember ⟨.user pp, t⟩ n s =
      (.ok (es.find? (fun nd => nd.1 == n)),
       { fs := s.fs, faults := [], trace := s.trace ++ [.listE (.user pp)] }) := by
  simp only [getMember, reraiseAs, mbind, getFS, hlk, archList, nextFault, hf,
    List.headD_nil, Bool.not_true, Bool.false_eq_true, if_false, if_pos rfl,
    emitEv, mret, List.tail_nil]
  simp [mbind, emitEv, mret]

theorem memberExist_ok_run (pp : List String) (t : ArchiveType) (n : String)
    (es : List (String × FileData)) (s : St) (hf : s.faults = [])
    (hlk : lookupA s.fs.files (.user pp) = some (.archiveF t es)) :
    memberExist ⟨.user pp, t⟩ n s =
      (.ok (es.find? (fun nd => nd.1 == n)).isSome,
       { fs := s.fs, faults := [], trace := s.trace ++ [.listE (.user pp)] }) := by
  simp only [memberExist, mbind, getMember_ok_run pp t n es s hf hlk, mret]

theorem procNames_cons_eq (nd : String × FileData) (tl : List (String × FileData))
    (name : String) (h : nd.1 = name) : procNames (nd :: tl) name = procNames tl name := by
  simp [procNames, List.filter_cons, h]

theorem procNames_cons_ne (nd : String × FileData) (tl : List (String × FileData))
    (name : String) (h : nd.1 ≠ name) :
    procNames (nd :: tl) name = nd.1 :: procNames tl name := by
  simp [procNames, List.filter_cons, h]

theorem extractLoop_ok (pp : List String) (t : ArchiveType) (k : Nat) (name : String)
    (es : List (String × FileData)) :
    ∀ (members : List (String × FileData)) (s : St), s.faults = [] →
    lookupA s.fs.files (.user pp) = some (.archiveF t es) →
    (∀ nd ∈ members, nd.1 ∈ es.map Prod.fst) →
    (∀ nd ∈ members, PlainName nd.1) →
    (extractLoop ⟨.user pp, t⟩ name (Loc.tmp k ["files"]) members s).1 = .ok () ∧
    (extractLoop ⟨.user pp, t⟩ name (Loc.tmp k ["files"]) members s).2.faults = [] ∧
    (extractLoop ⟨.user pp, t⟩ name (Loc.tmp k ["files"]) members s).2.fs.counter = s.fs.counter ∧
    (∀ q : Loc, (∀ n', n' ∈ procNames members name → q ≠ Loc.tmp k ["files", n']) →
      lookupA (extractLoop ⟨.user pp, t⟩ name (Loc.tmp k ["files"]) members s).2.fs.files q =
        lookupA s.fs.files q) ∧
    (∀ n', n' ∈ procNames members name →
      lookupA (extractLoop ⟨.user pp, t⟩ name (Loc.tmp k ["files"]) members s).2.fs.files
        (Loc.tmp k ["files", n']) = entryData es n') := by
  intro members
  induction members with
  | nil =>
    intro s hf hlk _ _
    refine ⟨rfl, hf, rfl, fun q _ => rfl, fun n' hn' => ?_⟩
    simp [procNames] at hn'
  | cons nd tl ih =>
    intro s hf hlk hmem hplain
    by_cases hn : (nd.1 == name) = true
    · have heq : nd.1 = name := by simpa using hn
      have hproc := procNames_cons_eq nd tl name heq
      simp only [extractLoop, hn, if_true, mbind, mret]
      obtain ⟨ih1, ih2, ih3, ihB, ihA⟩ := ih s hf hlk
        (fun x hx => hmem x (List.mem_cons_of_mem nd hx))
        (fun x hx => hplain x (List.mem_cons_of_mem nd hx))
      exact ⟨ih1, ih2, ih3,
        fun q hq => ihB q (fun n' hn' => hq n' (hproc ▸ hn')),
        fun n' hn' => ihA n' (hproc ▸ hn')⟩
    · have hne : nd.1 ≠ name := by simpa using hn
      have hproc := procNames_cons_ne nd tl name hne
      obtain ⟨d₀, hfind, hED⟩ := entryData_of_mem es nd.1 (hmem nd (List.mem_cons_self nd tl))
      have hpl := (hplain nd (List.mem_cons_self nd tl)).1
      have hrun := archExtract_ok_run pp t k nd.1 es d₀ s hf hlk hfind hpl
      simp only [extractLoop, hn, Bool.false_eq_true, if_false, mbind, hrun]
      have hlk' : lookupA (s.fs.write (Loc.tmp k ["files", nd.1]) d₀).files (.user pp) =
          some (.archiveF t es) := by
        rw [lookupA_write_ne _ _ _ _ (user_ne_tmp k ["files", nd.1] pp)]
        exact hlk
      obtain ⟨ih1, ih2, ih3, ihB, ihA⟩ :=
        ih { fs := s.fs.write (Loc.tmp k ["files", nd.1]) d₀, faults := [],
             trace := s.trace ++ [.extractE (.user pp) nd.1 (Loc.tmp k ["files", nd.1])] }
          rfl hlk'
          (fun x hx => hmem x (List.mem_cons_of_mem nd hx))
          (fun x hx => hplain x (List.mem_cons_of_mem nd hx))
      refine ⟨ih1, ih2, ?_, fun q hq => ?_, fun n' hn' => ?_⟩
      · rw [ih3]
        rfl
      · have hq_tl : ∀ m', m' ∈ procNames tl name → q ≠ Loc.tmp k ["files", m'] := by
          intro m' hm'
          exact hq m' (by rw [hproc]; exact List.mem_cons_of_mem nd.1 hm')
        have hq_head : q ≠ Loc.tmp k ["files", nd.1] := by
          exact hq nd.1 (by rw [hproc]; exact List.mem_cons_self nd.1 (procNames tl name))
        rw [ihB q hq_tl]
        simpa using lookupA_write_ne s.fs _ d₀ q hq_head
      · rw [hproc] at hn'
        rcases List.mem_cons.mp hn' with hhd | htl
        · by_cases hin : n' ∈ procNames tl name
          · exact ihA n' hin
          · have hq_tl : ∀ m', m' ∈ procNames tl name →
                Loc.tmp k ["files", n'] ≠ Loc.tmp k ["files", m'] := by
              intro m' hm' hcontra
              obtain ⟨_, hlist⟩ := Loc.tmp.inj hcontra
              simp only [List.cons.injEq, and_true, true_and] at hlist
              exact hin (by rw [hlist]; exact hm')
            rw [ihB _ hq_tl]
            rw [hhd]
            have hself := lookupA_write_self s.fs (Loc.tmp k ["files", nd.1]) d₀
            simpa [hself] using hED.symm
        · exact ihA n' htl

theorem addLoop_ok (t : ArchiveType) (p : Loc) :
    ∀ (L : List Loc) (s : St) (E : List (String × FileData)), s.faults = [] →
    lookupA s.fs.files p = some (.archiveF t E) →
    (∀ q ∈ L, q ≠ p ∧ ∃ d, lookupA s.fs.files q = some d) →
    (addLoop t p L s).1 = .ok () ∧
    (addLoop t p L s).2.faults = [] ∧
    (addLoop t p L s).2.fs.counter = s.fs.counter ∧
    (∀ q : Loc, q ≠ p → lookupA (addLoop t p L s).2.fs.files q = lookupA s.fs.files q) ∧
    (∃ E', lookupA (addLoop t p L s).2.fs.files p = some (.archiveF t E') ∧
      E'.map Prod.fst = E.map Prod.fst ++ L.map Loc.baseName) := by
  intro L
  induction L with
  | nil =>
    intro s E hf hp _
    exact ⟨rfl, hf, rfl, fun q _ => rfl, E, hp, by simp⟩
  | cons l tl ih =>
    intro s E hf hp hL
    obtain ⟨hlp, d, hld⟩ := hL l (List.mem_cons_self l tl)
    have hrun := archAdd_ok_run t p l d E s hf hld hp
    simp only [addLoop, mbind, hrun]
    have hp' : lookupA (s.fs.write p (.archiveF t (E ++ [(l.baseName, d)]))).files p =
        some (.archiveF t (E ++ [(l.baseName, d)])) := lookupA_write_self _ _ _
    have hL' : ∀ q ∈ tl, q ≠ p ∧ ∃ d', lookupA
        (s.fs.write p (.archiveF t (E ++ [(l.baseName, d)]))).files q = some d' := by
      intro q hq
      obtain ⟨hqp, d', hd'⟩ := hL q (List.mem_cons_of_mem l hq)
      exact ⟨hqp, d', by rw [lookupA_write_ne _ _ _ _ hqp]; exact hd'⟩
    obtain ⟨ih1, ih2, ih3, ihB, E'', hE₁, hE₂⟩ :=
      ih { fs := s.fs.write p (.archiveF t (E ++ [(l.baseName, d)])), faults := [],
           trace := s.trace ++ [.addE p l.baseName] } (E ++ [(l.baseName, d)]) rfl hp' hL'
    refine ⟨ih1, ih2, ?_, fun q hq => ?_, E'', hE₁, ?_⟩
    · rw [ih3]
      rfl
    · rw [ihB q hq]
      simpa using lookupA_write_ne s.fs p _ q hq
    · rw [hE₂]
      simp

theorem loc_ne_tmp_of_not_inTmp (q : Loc) (k : Nat) (r : List String)
    (h : q.inTmp k = false) : q ≠ Loc.tmp k r := by
  cases q with
  | user xs => exact user_ne_tmp k r xs
  | tmp j xs =>
    intro hcontra
    obtain ⟨hj, _⟩ := Loc.tmp.inj hcontra
    rw [hj] at h
    rw [inTmp_tmp_self] at h
    exact Bool.noConfusion h

theorem procNames_subset_names (es : List (String × FileData)) (name x : String)
    (h : x ∈ procNames es name) : x ∈ es.map Prod.fst := by
  simp only [procNames, List.mem_map, List.mem_filter] at h
  obtain ⟨nd, ⟨hmem, _⟩, hx⟩ := h
  exact List.mem_map.mpr ⟨nd, hmem, hx⟩

theorem mem_procNames_ne (es : List (String × FileData)) (name x : String)
    (h : x ∈ procNames es name) : x ≠ name := by
  simp only [procNames, List.mem_map, List.mem_filter] at h
  obtain ⟨nd, ⟨_, hne⟩, hx⟩ := h
  rw [← hx]
  simpa using hne

theorem procNames_eq_filter_map (es : List (String × FileData)) (name : String) :
    procNames es name = (es.map Prod.fst).filter (fun x => decide (x ≠ name)) := by
  induction es with
  | nil => rfl
  | cons nd tl ih =>
    by_cases hn : nd.1 = name
    · simp [procNames, List.filter_cons, hn] at ih ⊢
      exact ih
    · simp [procNames, List.filter_cons, hn] at ih ⊢
      exact ih

theorem rebuildPhase_ok (pp : List String) (t : ArchiveType) (k : Nat) (name : String)
    (es : List (String × FileData)) (s : St)
    (hf : s.faults = [])
    (hlk : lookupA s.fs.files (.user pp) = some (.archiveF t es))
    (hplain : ∀ nd ∈ es, PlainName nd.1)
    (hfresh : ∀ r : List String, lookupA s.fs.files (Loc.tmp k r) = none) :
    (rebuildPhase ⟨.user pp, t⟩ name k s).1 = .ok () ∧
    (rebuildPhase ⟨.user pp, t⟩ name k s).2.faults = [] ∧
    (rebuildPhase ⟨.user pp, t⟩ name k s).2.fs.counter = s.fs.counter ∧
    (∀ q : Loc, q.inTmp k = false →
      lookupA (rebuildPhase ⟨.user pp, t⟩ name k s).2.fs.files q = lookupA s.fs.files q) ∧
    (∃ E', lookupA (rebuildPhase ⟨.user pp, t⟩ name k s).2.fs.files (Loc.tmp k ["new_archive"]) =
        some (.archiveF t E') ∧
      (E'.map Prod.fst).toFinset = (procNames es name).toFinset) := by
  have hGM := getMembers_ok_run pp t es s hf hlk
  have hmem : ∀ nd ∈ es, nd.1 ∈ es.map Prod.fst := fun nd hnd => List.mem_map.mpr ⟨nd, hnd, rfl⟩
  obtain ⟨el1, el2, el3, elB, elA⟩ := extractLoop_ok pp t k name es es
    { fs := s.fs, faults := [], trace := s.trace ++ [.listE (.user pp)] } rfl hlk hmem hplain
  rcases hEL : extractLoop ⟨.user pp, t⟩ name (Loc.tmp k ["files"]) es
      { fs := s.fs, faults := [], trace := s.trace ++ [.listE (.user pp)] } with ⟨r₂, s₂⟩
  rw [hEL] at el1 el2 el3 elB elA
  simp only at el1 el2 el3 elB elA
  subst el1
  have hlk_s2 : ∀ q : Loc, q.inTmp k = false → lookupA s₂.fs.files q = lookupA s.fs.files q := by
    intro q hq
    have := elB q (fun n' _ => loc_ne_tmp_of_not_inTmp q k ["files", n'] hq)
    simpa using this
  have hdirchar : ∀ x,
      (x ∈ procNames es name ∧
        lookupA s₂.fs.files (Loc.tmp k ["files", x]) = entryData es x) ∨
      (x ∉ procNames es name ∧ lookupA s₂.fs.files (Loc.tmp k ["files", x]) = none) := by
    intro x
    by_cases hx : x ∈ procNames es name
    · exact Or.inl ⟨hx, elA x hx⟩
    · refine Or.inr ⟨hx, ?_⟩
      have hq : ∀ n', n' ∈ procNames es name → Loc.tmp k ["files", x] ≠ Loc.tmp k ["files", n'] := by
        intro n' hn' hcontra
        obtain ⟨_, hlist⟩ := Loc.tmp.inj hcontra
        simp only [List.cons.injEq, and_true, true_and] at hlist
        exact hx (by rw [hlist]; exact hn')
      have helB := elB _ hq
      simp only at helB
      rw [helB]
      exact hfresh ["files", x]
  have hCW := archCreateW_ok_run t (Loc.tmp k ["new_archive"]) s₂ el2
  have hnp_ne : ∀ x : String, Loc.tmp k ["files", x] ≠ Loc.tmp k ["new_archive"] := by
    intro x hcontra
    obtain ⟨_, hlist⟩ := Loc.tmp.inj hcontra
    simp at hlist
  have hp' : lookupA (s₂.fs.write (Loc.tmp k ["new_archive"]) (.archiveF t [])).files
      (Loc.tmp k ["new_archive"]) = some (.archiveF t []) := lookupA_write_self _ _ _
  have hLmem : ∀ q : Loc,
      q ∈ FS.listDir (s₂.fs.write (Loc.tmp k ["new_archive"]) (.archiveF t []))
        (Loc.tmp k ["files"]) ↔
      ∃ x, q = Loc.tmp k ["files", x] ∧ x ∈ procNames es name := by
    intro q
    rw [mem_listDir_iff, parent?_filesDir_iff]
    constructor
    · intro ⟨⟨x, hx⟩, hnn⟩
      refine ⟨x, hx, ?_⟩
      rw [hx] at hnn
      rw [lookupA_write_ne _ _ _ _ (hnp_ne x)] at hnn
      rcases hdirchar x with ⟨hxp, _⟩ | ⟨_, hnone⟩
      · exact hxp
      · exact absurd hnone hnn
    · intro ⟨x, hx, hxp⟩
      refine ⟨⟨x, hx⟩, ?_⟩
      rw [hx, lookupA_write_ne _ _ _ _ (hnp_ne x)]
      rcases hdirchar x with ⟨_, hch⟩ | ⟨hnp, _⟩
      · rw [hch]
        obtain ⟨d, _, hED⟩ := entryData_of_mem es x (procNames_subset_names es name x hxp)
        rw [hED]
        exact Option.some_ne_none d
      · exact absurd hxp hnp
  have hL' : ∀ q ∈ FS.listDir (s₂.fs.write (Loc.tmp k ["new_archive"]) (.archiveF t []))
      (Loc.tmp k ["files"]), q ≠ Loc.tmp k ["new_archive"] ∧
      ∃ d, lookupA (s₂.fs.write (Loc.tmp k ["new_archive"]) (.archiveF t [])).files q = some d := by
    intro q hq
    obtain ⟨x, hx, hxp⟩ := (hLmem q).mp hq
    subst hx
    refine ⟨hnp_ne x, ?_⟩
    rw [lookupA_write_ne _ _ _ _ (hnp_ne x)]
    obtain ⟨d, _, hED⟩ := entryData_of_mem es x (procNames_subset_names es name x hxp)
    rcases hdirchar x with ⟨_, hch⟩ | ⟨hnp, _⟩
    · exact ⟨d, by rw [hch, hED]⟩
    · exact absurd hxp hnp
  obtain ⟨al1, al2, al3, alB, E', hE₁, hE₂⟩ := addLoop_ok t (Loc.tmp k ["new_archive"])
    (FS.listDir (s₂.fs.write (Loc.tmp k ["new_archive"]) (.archiveF t []))
      (Loc.tmp k ["files"]))
    { fs := s₂.fs.write (Loc.tmp k ["new_archive"]) (.archiveF t []), faults := [],
      trace := s₂.trace ++ [.createE (Loc.tmp k ["new_archive"])] } [] rfl hp' hL'
  have hre : rebuildPhase ⟨.user pp, t⟩ name k s =
      addLoop t (Loc.tmp k ["new_archive"])
        (FS.listDir (s₂.fs.write (Loc.tmp k ["new_archive"]) (.archiveF t []))
          (Loc.tmp k ["files"]))
        { fs := s₂.fs.write (Loc.tmp k ["new_archive"]) (.archiveF t []), faults := [],
          trace := s₂.trace ++ [.createE (Loc.tmp k ["new_archive"])] } := by
    simp only [rebuildPhase, mbind, hGM, hEL, hCW, getFS]
  rw [hre]
  refine ⟨al1, al2, ?_, fun q hq => ?_, E', hE₁, ?_⟩
  · rw [al3]
    rw [counter_write]
    exact el3
  · rw [alB q (loc_ne_tmp_of_not_inTmp q k ["new_archive"] hq)]
    have hwne := lookupA_write_ne s₂.fs (Loc.tmp k ["new_archive"]) (.archiveF t []) q
      (loc_ne_tmp_of_not_inTmp q k ["new_archive"] hq)
    simp only at hwne ⊢
    rw [hwne]
    exact hlk_s2 q hq
  · rw [hE₂]
    simp only [List.map_nil, List.nil_append]
    apply Finset.ext
    intro x
    simp only [List.mem_toFinset, List.mem_map]
    constructor
    · intro ⟨q, hqL, hqb⟩
      obtain ⟨x', hq', hx'p⟩ := (hLmem q).mp hqL
      rw [hq'] at hqb
      rw [baseName_tmp_pair] at hqb
      rw [← hqb]
      exact hx'p
    · intro hxp
      exact ⟨Loc.tmp k ["files", x], (hLmem _).mpr ⟨x, rfl, hxp⟩, baseName_tmp_pair k "files" x⟩

theorem lookupA_cleanTmp_in (fs : FS) (k : Nat) (q : Loc) (h : q.inTmp k = true) :
    lookupA (fs.cleanTmp k).files q = none := by
  have hkey := lookupA_filterKey (fun x => !(x.inTmp k)) fs.files q
  simp only [FS.cleanTmp]
  simp only [hkey]
  simp [h]

theorem wf_fresh (fs : FS) (hwf : fs.Wf) (k : Nat) (hk : fs.counter ≤ k) (r : List String) :
    lookupA fs.files (Loc.tmp k r) = none := by
  by_contra hne
  obtain ⟨d, hd⟩ := (lookupA_ne_none_iff fs.files (Loc.tmp k r)).mp hne
  have hbelow := hwf.2 (Loc.tmp k r, d) hd
  simp only [Loc.tmpBelow] at hbelow
  have : k < fs.counter := by simpa using hbelow
  omega

theorem toFinset_filter_ne (xs : List String) (name : String) :
    (xs.filter (fun x => decide (x ≠ name))).toFinset = xs.toFinset.erase name := by
  apply Finset.ext
  intro x
  simp only [List.mem_toFinset, List.mem_filter, Finset.mem_erase, decide_eq_true_eq]
  exact and_comm

theorem removeMember_ok (fs : FS) (pp : List String) (t : ArchiveType)
    (es : List (String × FileData)) (name : String) (tr : List Ev)
    (hwf : fs.Wf) (hlk : lookupA fs.files (.user pp) = some (.archiveF t es))
    (hplain : ∀ nd ∈ es, PlainName nd.1) (hmem : name ∈ es.map Prod.fst) :
    ∃ E', (removeMember ⟨.user pp, t⟩ name ⟨fs, [], tr⟩).1 = .ok () ∧
      lookupA (removeMember ⟨.user pp, t⟩ name ⟨fs, [], tr⟩).2.fs.files (.user pp) =
        some (.archiveF t E') ∧
      (E'.map Prod.fst).toFinset = (es.map Prod.fst).toFinset.erase name ∧
      (removeMember ⟨.user pp, t⟩ name ⟨fs, [], tr⟩).2.faults = [] ∧
      (∀ q : Loc, q ≠ .user pp →
        lookupA (removeMember ⟨.user pp, t⟩ name ⟨fs, [], tr⟩).2.fs.files q =
          lookupA fs.files q) := by
  have hME := memberExist_ok_run pp t name es ⟨fs, [], tr⟩ rfl hlk
  have hex : (es.find? (fun nd => nd.1 == name)).isSome = true :=
    (find?_fst_isSome_iff es name).mpr hmem
  have hfresh : ∀ r : List String, lookupA fs.files (Loc.tmp fs.counter r) = none :=
    wf_fresh fs hwf fs.counter (Nat.le_refl _)
  obtain ⟨rb1, rb2, rb3, rbB, E', rbE₁, rbE₂⟩ :=
    rebuildPhase_ok pp t fs.counter name es
      { fs := { files := fs.files, counter := fs.counter + 1 }, faults := [],
        trace := tr ++ [.listE (.user pp)] } rfl hlk hplain hfresh
  rcases hRB : rebuildPhase ⟨.user pp, t⟩ name fs.counter
      { fs := { files := fs.files, counter := fs.counter + 1 }, faults := [],
        trace := tr ++ [.listE (.user pp)] } with ⟨r₂, s₂⟩
  rw [hRB] at rb1 rb2 rb3 rbB rbE₁
  simp only at rb1 rb2 rb3 rbB rbE₁
  subst rb1
  have hren := renameLoc_ok_run (Loc.tmp fs.counter ["new_archive"]) (.user pp)
    (.archiveF t E') s₂ rb2 rbE₁
  have hrm : removeMember ⟨.user pp, t⟩ name ⟨fs, [], tr⟩ =
      (.ok (), { fs := FS.cleanTmp ((s₂.fs.erase (Loc.tmp fs.counter ["new_archive"])).write
                   (.user pp) (.archiveF t E')) fs.counter,
                 faults := [],
                 trace := (s₂.trace ++
                   [.renameE (Loc.tmp fs.counter ["new_archive"]) (.user pp)]) }) := by
    simp only [removeMember, reraiseAs, mbind, hME, hex, Bool.not_true, Bool.false_eq_true,
      if_false, withTmpDir, hRB, hren]
  rw [hrm]
  refine ⟨E', rfl, ?_, ?_, rfl, ?_⟩
  · simp only
    rw [lookupA_cleanTmp _ _ _ (inTmp_user fs.counter pp)]
    exact lookupA_write_self _ _ _
  · rw [rbE₂, procNames_eq_filter_map, toFinset_filter_ne]
  · intro q hq
    simp only
    by_cases hqt : q.inTmp fs.counter = true
    · rw [lookupA_cleanTmp_in _ _ _ hqt]
      cases q with
      | user xs => simp [Loc.inTmp] at hqt
      | tmp j xs =>
        have hj : j = fs.counter := by simpa [Loc.inTmp] using hqt
        rw [hj]
        exact (hfresh xs).symm
    · have hqt' : q.inTmp fs.counter = false := by
        cases hq2 : q.inTmp fs.counter
        · rfl
        · exact absurd hq2 hqt
      rw [lookupA_cleanTmp _ _ _ hqt']
      rw [lookupA_write_ne _ _ _ _ hq]
      rw [lookupA_erase_ne _ _ _ (loc_ne_tmp_of_not_inTmp q fs.counter ["new_archive"] hqt')]
      have := rbB q hqt'
      simp only at this
      rw [this]

theorem ljoin_singleton (dir : Loc) (n : String) : dir.ljoin [n] = dir.join n := by
  cases dir with
  | user xs => rfl
  | tmp k xs => rfl

theorem getMember_run_head (pp : List String) (t : ArchiveType) (n : String)
    (es : List (String × FileData)) (s : St) (hb : s.faults.headD true = true)
    (hlk : lookupA s.fs.files (.user pp) = some (.archiveF t es)) :
    getMember ⟨.user pp, t⟩ n s =
      (.ok (es.find? (fun nd => nd.1 == n)),
       { fs := s.fs, faults := s.faults.tail, trace := s.trace ++ [.listE (.user pp)] }) := by
  simp only [getMember, reraiseAs, mbind, getFS, hlk, archList, nextFault, hb,
    Bool.not_true, Bool.false_eq_true, if_false, if_pos rfl, emitEv, mret]
  simp [mbind, emitEv, mret]

theorem archExtract_fault_run (h : ArchiveH) (n : String) (dir : Loc) (s : St)
    (hb : s.faults.headD true = false) :
    archExtract h n dir s =
      (.error .ioFault, { fs := s.fs, faults := s.faults.tail, trace := s.trace }) := by
  have hb2 : s.faults.head?.getD true = false := by simpa using hb
  simp [archExtract, mbind, nextFault, hb2, mthrow]

theorem archExtract_ok_run' (pp : List String) (t : ArchiveType) (n : String)
    (es : List (String × FileData)) (d₀ : FileData) (dir : Loc) (s : St)
    (hf : s.faults = [])
    (hlk : lookupA s.fs.files (.user pp) = some (.archiveF t es))
    (hfind : es.reverse.find? (fun nd => nd.1 == n) = some (n, d₀))
    (hplain : splitSlash n = [n]) :
    archExtract ⟨.user pp, t⟩ n dir s =
      (.ok (), { fs := s.fs.write (dir.join n) d₀, faults := [],
                 trace := s.trace ++ [.extractE (.user pp) n (dir.join n)] }) := by
  simp only [archExtract, mbind, nextFault, hf, List.headD_nil, Bool.not_true,
    Bool.false_eq_true, if_false, getFS, hlk, if_pos rfl, hfind, hplain,
    ljoin_singleton, emitEv, modFS, List.tail_nil]
  simp [mbind, emitEv, modFS, mret]

theorem wf_write_user (fs : FS) (hwf : fs.Wf) (xs : List String) (d : FileData) :
    (fs.write (.user xs) d).Wf := by
  constructor
  · simp only [FS.write, List.map_cons]
    refine List.Nodup.cons ?_ ?_
    · intro hmem
      simp only [List.mem_map, List.mem_filter, decide_eq_true_eq] at hmem
      obtain ⟨e, ⟨_, hne⟩, he⟩ := hmem
      exact hne he
    · exact (hwf.1).sublist (List.Sublist.map _ (List.filter_sublist fs.files))
  · intro e hmem
    simp only [FS.write, List.mem_cons] at hmem
    rcases hmem with rfl | hmem
    · rfl
    · exact hwf.2 e (List.mem_of_mem_filter hmem)

/-- C1: for an archive whose members all have plain base filenames and that
contains a member named name, remove_member succeeds and the rebuilt
archive's member listing carries exactly the original set of member names
with name removed (order across the rebuild is not constrained). -/
theorem remove_member_result_members (fs : FS) (pp : List String) (t : ArchiveType)
    (es : List (String × FileData)) (name : String)
    (hwf : fs.Wf) (hlk : lookupA fs.files (.user pp) = some (.archiveF t es))
    (hplain : ∀ nd ∈ es, PlainName nd.1) (hmem : name ∈ es.map Prod.fst) :
    ∃ s₁ es₁, removeMember ⟨.user pp, t⟩ name ⟨fs, [], []⟩ = (.ok (), s₁) ∧
      (getMembers ⟨.user pp, t⟩ s₁).1 = .ok es₁ ∧
      (es₁.map Prod.fst).toFinset = (es.map Prod.fst).toFinset.erase name := by
  obtain ⟨E', h1, h2, h3, h4, _⟩ := removeMember_ok fs pp t es name [] hwf hlk hplain hmem
  rcases hRM : removeMember ⟨.user pp, t⟩ name ⟨fs, [], []⟩ with ⟨r, s₁⟩
  rw [hRM] at h1 h2 h4
  simp only at h1 h2 h4
  subst h1
  refine ⟨s₁, E', rfl, ?_, h3⟩
  rw [getMembers_ok_run pp t E' s₁ h4 h2]

/-- Witness for C1 at a three-member tar archive: removing B leaves exactly
the names A and C. -/
theorem remove_member_result_members_witness :
    ∃ s₁ es₁,
      removeMember ⟨.user ["a.tar"], .tar⟩ "B"
        ⟨⟨[(.user ["a.tar"], .archiveF .tar
            [("A", .plain [1]), ("B", .plain [2]), ("C", .plain [3])])], 0⟩, [], []⟩ =
        (.ok (), s₁) ∧
      (getMembers ⟨.user ["a.tar"], .tar⟩ s₁).1 = .ok es₁ ∧
      (es₁.map Prod.fst).toFinset =
        ((["A", "B", "C"] : List String).toFinset).erase "B" :=
  remove_member_result_members
    ⟨[(.user ["a.tar"], .archiveF .tar
        [("A", .plain [1]), ("B", .plain [2]), ("C", .plain [3])])], 0⟩
    ["a.tar"] .tar [("A", .plain [1]), ("B", .plain [2]), ("C", .plain [3])] "B"
    (by decide) rfl (by decide) (by decide)

/-- C2: during remove_member, any failure leaves the file at the handle's
real (user) path untouched and the trace free of mutations of that path; on
success the sole mutation of the real path recorded in the trace is the final
rename of the scratch archive over it.  Stated for every fault stream, so it
covers a failure injected at any single backend call of the rebuild. -/
theorem removeMember_atomic (fs : FS) (faults : List Bool) (pp : List String)
    (t : ArchiveType) (name : String) :
    (∀ e, (removeMember ⟨.user pp, t⟩ name ⟨fs, faults, []⟩).1 = .error e →
       lookupA (removeMember ⟨.user pp, t⟩ name ⟨fs, faults, []⟩).2.fs.files (.user pp) =
         lookupA fs.files (.user pp) ∧
       ((removeMember ⟨.user pp, t⟩ name ⟨fs, faults, []⟩).2.trace).filter
         (fun ev => mutatesAt ev (.user pp)) = []) ∧
    (∀ u, (removeMember ⟨.user pp, t⟩ name ⟨fs, faults, []⟩).1 = .ok u →
       ((removeMember ⟨.user pp, t⟩ name ⟨fs, faults, []⟩).2.trace).filter
         (fun ev => mutatesAt ev (.user pp)) =
         [.renameE (.tmp fs.counter ["new_archive"]) (.user pp)]) := by
  obtain ⟨hfs₁, htr₁⟩ := readOnlyM_memberExist ⟨.user pp, t⟩ name ⟨fs, faults, []⟩
  rcases hME : memberExist ⟨.user pp, t⟩ name ⟨fs, faults, []⟩ with ⟨r₁, s₁⟩
  rw [hME] at hfs₁ htr₁
  simp only at hfs₁ htr₁
  have htr₁' : s₁.trace.filter (fun ev => mutatesAt ev (.user pp)) = [] := by
    simpa using htr₁ (.user pp)
  simp only [removeMember, reraiseAs, mbind, hME]
  cases r₁ with
  | error e =>
    refine ⟨fun e' _ => ⟨by rw [hfs₁], htr₁'⟩, fun u hu => ?_⟩
    exact Except.noConfusion hu
  | ok b =>
    cases b with
    | false =>
      simp only [Bool.not_false, if_true, mthrow]
      refine ⟨fun e' _ => ⟨by rw [hfs₁], htr₁'⟩, fun u hu => ?_⟩
      exact Except.noConfusion hu
    | true =>
      simp only [Bool.not_true, Bool.false_eq_true, if_false, withTmpDir]
      obtain ⟨hc₂, hlk₂, htr₂⟩ :=
        onlyTmpK_rebuildPhase s₁.fs.counter ⟨.user pp, t⟩ name
          { s₁ with fs := { s₁.fs with counter := s₁.fs.counter + 1 } }
      rcases hRB : rebuildPhase ⟨.user pp, t⟩ name s₁.fs.counter
          { s₁ with fs := { s₁.fs with counter := s₁.fs.counter + 1 } } with ⟨r₂, s₂⟩
      rw [hRB] at hc₂ hlk₂ htr₂
      simp only at hc₂ hlk₂ htr₂
      have hlkU : lookupA s₂.fs.files (.user pp) = lookupA fs.files (.user pp) := by
        rw [hlk₂ (.user pp) (inTmp_user _ pp), hfs₁]
      have htrU : s₂.trace.filter (fun ev => mutatesAt ev (.user pp)) = [] := by
        rw [htr₂ (.user pp) (inTmp_user _ pp)]
        exact htr₁'
      simp only [mbind, hRB]
      cases r₂ with
      | error e =>
        refine ⟨fun e' _ => ⟨?_, htrU⟩, fun u hu => ?_⟩
        · rw [lookupA_cleanTmp s₂.fs s₁.fs.counter (.user pp) (inTmp_user _ pp), hlkU]
        · exact Except.noConfusion hu
      | ok _ =>
        simp only [renameLoc, mbind, nextFault]
        cases hb₂ : s₂.faults.headD true with
        | false =>
          simp only [Bool.not_false, if_true, ite_true, mthrow, if_pos]
          refine ⟨fun e' _ => ⟨?_, htrU⟩, fun u hu => ?_⟩
          · rw [lookupA_cleanTmp s₂.fs s₁.fs.counter (.user pp) (inTmp_user _ pp), hlkU]
          · exact Except.noConfusion hu
        | true =>
          simp only [Bool.not_true, Bool.false_eq_true, if_false, mbind, getFS]
          rcases hsrc : lookupA s₂.fs.files (Loc.tmp s₁.fs.counter ["new_archive"]) with _ | d
          · simp only [hsrc, mthrow]
            refine ⟨fun e' _ => ⟨?_, htrU⟩, fun u hu => ?_⟩
            · rw [lookupA_cleanTmp s₂.fs s₁.fs.counter (.user pp) (inTmp_user _ pp), hlkU]
            · exact Except.noConfusion hu
          · simp only [hsrc, mbind, emitEv, modFS, mret]
            refine ⟨fun e' he' => Except.noConfusion he', fun u _ => ?_⟩
            have hmut : mutatesAt (.renameE (Loc.tmp s₁.fs.counter ["new_archive"]) (.user pp))
                (.user pp) = true := by
              simp [mutatesAt]
            rw [List.filter_append, htrU]
            simp only [List.filter_cons, hmut, List.filter_nil, List.nil_append]
            rw [hfs₁]
            simp


/-- Witness for C2 at a three-member tar archive with a fault injected at the
first extraction of the rebuild: the call fails and the archive file at the
real path is untouched, with no mutation of it in the trace. -/
theorem removeMember_atomic_witness :
    lookupA (removeMember ⟨.user ["a.tar"], .tar⟩ "B"
        ⟨⟨[(.user ["a.tar"], .archiveF .tar
            [("A", .plain [1]), ("B", .plain [2]), ("C", .plain [3])])], 0⟩,
         [true, true, false], []⟩).2.fs.files (.user ["a.tar"]) =
      lookupA [(Loc.user ["a.tar"], FileData.archiveF .tar
            [("A", .plain [1]), ("B", .plain [2]), ("C", .plain [3])])] (.user ["a.tar"]) ∧
    ((removeMember ⟨.user ["a.tar"], .tar⟩ "B"
        ⟨⟨[(.user ["a.tar"], .archiveF .tar
            [("A", .plain [1]), ("B", .plain [2]), ("C", .plain [3])])], 0⟩,
         [true, true, false], []⟩).2.trace).filter
      (fun ev => mutatesAt ev (.user ["a.tar"])) = [] :=
  (removeMember_atomic
    ⟨[(.user ["a.tar"], .archiveF .tar
        [("A", .plain [1]), ("B", .plain [2]), ("C", .plain [3])])], 0⟩
    [true, true, false] ["a.tar"] .tar "B").1
    (.failedToRemoveArchiveMember .ioFault) rfl

/-- C5: when the member is absent, extract_member fails with the
member-not-found condition wrapped by the extract-failure kind, the listing
pre-check is the only backend interaction (no extract event, filesystem
untouched) and this happens regardless of in_place; when the member exists
and in_place is set, a failing extraction leaves the whole filesystem (hence
the archive) untouched and no removal happens; with no faults the member is
extracted and then removed from the archive. -/
theorem extract_member_precheck_inplace (fs : FS) (pp tdir : List String)
    (t : ArchiveType) (es : List (String × FileData)) (name : String) (rest : List Bool)
    (hlk : lookupA fs.files (.user pp) = some (.archiveF t es)) :
    (∀ inPlace : Bool, name ∉ es.map Prod.fst →
       extractMember ⟨.user pp, t⟩ name (.user tdir) inPlace ⟨fs, true :: rest, []⟩ =
         (.error (.failedToExtractArchiveMember .archiveMemberDoesNotExist),
          ⟨fs, rest, [.listE (.user pp)]⟩)) ∧
    (name ∈ es.map Prod.fst →
       extractMember ⟨.user pp, t⟩ name (.user tdir) true ⟨fs, true :: false :: rest, []⟩ =
         (.error (.failedToExtractArchiveMember .ioFault),
          ⟨fs, rest, [.listE (.user pp)]⟩)) ∧
    (fs.Wf → (∀ nd ∈ es, PlainName nd.1) → name ∈ es.map Prod.fst →
       Loc.user (tdir ++ [name]) ≠ Loc.user pp →
       ∃ s₁ d₀ es₁,
         extractMember ⟨.user pp, t⟩ name (.user tdir) true ⟨fs, [], []⟩ = (.ok (), s₁) ∧
         entryData es name = some d₀ ∧
         lookupA s₁.fs.files (.user (tdir ++ [name])) = some d₀ ∧
         lookupA s₁.fs.files (.user pp) = some (.archiveF t es₁) ∧
         (es₁.map Prod.fst).toFinset = (es.map Prod.fst).toFinset.erase name) := by
  refine ⟨?_, ?_, ?_⟩
  · intro inPlace hnot
    have hGM := getMember_run_head pp t name es ⟨fs, true :: rest, []⟩ rfl hlk
    have hfind : es.find? (fun nd => nd.1 == name) = none :=
      (find?_fst_eq_none_iff es name).mpr hnot
    simp only [extractMember, reraiseAs, mbind, hGM, hfind, mthrow, List.tail_cons,
      List.nil_append]
  · intro hmem
    have hGM := getMember_run_head pp t name es ⟨fs, true :: false :: rest, []⟩ rfl hlk
    obtain ⟨nd, hnd⟩ := Option.isSome_iff_exists.mp ((find?_fst_isSome_iff es name).mpr hmem)
    have hAE := archExtract_fault_run ⟨.user pp, t⟩ name (.user tdir)
      { fs := fs, faults := false :: rest, trace := [.listE (.user pp)] } rfl
    simp only [extractMember, reraiseAs, mbind, hGM, hnd, List.tail_cons, List.nil_append,
      hAE, mthrow]
  · intro hwf hplain hmem hne
    have hGM := getMember_ok_run pp t name es ⟨fs, [], []⟩ rfl hlk
    obtain ⟨nd, hnd⟩ := Option.isSome_iff_exists.mp ((find?_fst_isSome_iff es name).mpr hmem)
    obtain ⟨d₀, hfind, hED⟩ := entryData_of_mem es name hmem
    have hplainN : splitSlash name = [name] := by
      obtain ⟨nd', hnd', hfst⟩ := List.mem_map.mp hmem
      rw [← hfst]
      exact (hplain nd' hnd').1
    have hAE := archExtract_ok_run' pp t name es d₀ (.user tdir)
      { fs := fs, faults := [], trace := [.listE (.user pp)] } rfl hlk hfind hplainN
    have hnepp : Loc.user pp ≠ Loc.user (tdir ++ [name]) := Ne.symm hne
    have hwf₂ := wf_write_user fs hwf (tdir ++ [name]) d₀
    have hlk₂ : lookupA (fs.write (.user (tdir ++ [name])) d₀).files (.user pp) =
        some (.archiveF t es) := by
      rw [lookupA_write_ne _ _ _ _ hnepp]
      exact hlk
    obtain ⟨es₁, r1, r2, r3, r4, r5⟩ := removeMember_ok
      (fs.write (.user (tdir ++ [name])) d₀) pp t es name
      [.listE (.user pp), .extractE (.user pp) name (.user (tdir ++ [name]))]
      hwf₂ hlk₂ hplain hmem
    rcases hRM : removeMember ⟨.user pp, t⟩ name
        ⟨fs.write (.user (tdir ++ [name])) d₀, [],
         [.listE (.user pp), .extractE (.user pp) name (.user (tdir ++ [name]))]⟩
      with ⟨rr, ss⟩
    rw [hRM] at r1 r2 r5
    simp only at r1 r2 r5
    subst r1
    refine ⟨ss, d₀, es₁, ?_, hED, ?_, r2, r3⟩
    · simp only [extractMember, reraiseAs, mbind, hGM, hnd, List.nil_append, hAE, Loc.join,
        List.cons_append, List.singleton_append]
      rw [if_pos trivial, hRM]
    · rw [r5 (.user (tdir ++ [name])) hne]
      exact lookupA_write_self _ _ _

/-- Witness for C5 at a two-member tar archive: the absent-member pre-check
conjunct applied to the member name D. -/
theorem extract_member_precheck_inplace_witness :
    extractMember ⟨.user ["a.tar"], .tar⟩ "D" (.user ["out"]) false
        ⟨⟨[(.user ["a.tar"], .archiveF .tar
            [("A", .plain [1]), ("B", .plain [2])])], 0⟩, [true], []⟩ =
      (.error (.failedToExtractArchiveMember .archiveMemberDoesNotExist),
       ⟨⟨[(.user ["a.tar"], .archiveF .tar
           [("A", .plain [1]), ("B", .plain [2])])], 0⟩, [], [.listE (.user ["a.tar"])]⟩) :=
  (extract_member_precheck_inplace
    ⟨[(.user ["a.tar"], .archiveF .tar [("A", .plain [1]), ("B", .plain [2])])], 0⟩
    ["a.tar"] ["out"] .tar [("A", .plain [1]), ("B", .plain [2])] "D" [] rfl).1
    false (by decide)

/-- C3 (failing input): on a plain text file, compression_ratio fails with
FailedToGetCompressedSize wrapping the usage ValueError, because the source
calls compressed_size without passing a compression level; the claim instead
promises the rounded ratio string after one trial compression. -/
theorem compression_ratio_plain_file_errors :
    (compressionRatioFn (fun _ => 0) ⟨.user ["doc.txt"]⟩ "gz"
        ⟨⟨[(.user ["doc.txt"], .plain [72, 101, 108, 108, 111])], 0⟩, [], []⟩).1 =
      .error (.failedToGetCompressedSize (.valueError MSG_LEVEL_MANDATORY)) := rfl

/-- Counterexample to C4 as stated: for the non-existent path a.gz, whose
suffix gz lies inside the closed compression format set (so outside neither
both sets), the claim predicts successful construction, yet FilePack
construction fails with the aggregate error. -/
theorem filepack_aggregate_counterexample :
    ¬ ((∃ e, filePackInit ⟨[], 0⟩ (.user ["a.gz"]) = .error e) ↔
       (lookupA ([] : List (Loc × FileData)) (.user ["a.gz"]) = none ∧
        ArchiveType.ofExt? (lstripDot (pySuffix "a.gz")) = none ∧
        CompressionType.ofExt? (lstripDot (pySuffix "a.gz")) = none)) := by
  intro hiff
  have herr : ∃ e, filePackInit ⟨[], 0⟩ (.user ["a.gz"]) = .error e :=
    ⟨.exceptionGroup (.valueError ERROR_MESSAGE_NOT_SUPPORTED) .fileNotFoundError, rfl⟩
  have hgz := (hiff.mp herr).2.2
  exact absurd hgz (by decide)

/-- C4 amended: FilePack construction succeeds exactly when at least one of
the two constructors succeeds; it fails exactly when the path does not exist
and its suffix lies outside the closed archive format set (the Compression
constructor fails for every non-existent path regardless of suffix), and the
failure is then the aggregate carrying both underlying errors. -/
theorem filepack_init_aggregate (fs : FS) (l : Loc) :
    ((∃ x, filePackInit fs l = .ok x) ↔
      ((∃ a, archiveInit fs l = .ok a) ∨ (∃ c, compressionInit fs l = .ok c))) ∧
    ((∃ e, filePackInit fs l = .error e) ↔
      (lookupA fs.files l = none ∧
       ArchiveType.ofExt? (lstripDot (pySuffix l.baseName)) = none)) ∧
    (∀ e, filePackInit fs l = .error e →
       e = .exceptionGroup (.valueError ERROR_MESSAGE_NOT_SUPPORTED) .fileNotFoundError) := by
  rcases hl : lookupA fs.files l with _ | d
  · have hcomp : compressionInit fs l = .error .fileNotFoundError := by
      simp [compressionInit, hl]
    rcases hsuf : ArchiveType.ofExt? (lstripDot (pySuffix l.baseName)) with _ | t
    · have harch : archiveInit fs l = .error (.valueError ERROR_MESSAGE_NOT_SUPPORTED) := by
        simp [archiveInit, hl, hsuf]
      have hfp : filePackInit fs l =
          .error (.exceptionGroup (.valueError ERROR_MESSAGE_NOT_SUPPORTED)
            .fileNotFoundError) := by
        simp [filePackInit, harch, hcomp]
      refine ⟨?_, ?_, ?_⟩
      · simp [hfp, harch, hcomp]
      · simp [hfp, hl, hsuf]
      · intro e he
        rw [hfp] at he
        exact (Except.error.inj he).symm
    · have harch : archiveInit fs l = .ok ⟨l, t⟩ := by
        simp [archiveInit, hl, hsuf]
      have hfp : filePackInit fs l = .ok (some ⟨l, t⟩, none) := by
        simp [filePackInit, harch, hcomp, Except.toOption]
      refine ⟨?_, ?_, ?_⟩
      · simp [hfp, harch]
      · simp [hfp, hsuf]
      · intro e he
        rw [hfp] at he
        exact Except.noConfusion he
  · have hcomp : compressionInit fs l = .ok ⟨l⟩ := by
      simp [compressionInit, hl]
    rcases harch : archiveInit fs l with e₁ | a
    · have hfp : filePackInit fs l = .ok (none, some ⟨l⟩) := by
        simp [filePackInit, harch, hcomp, Except.toOption]
      refine ⟨?_, ?_, ?_⟩
      · simp [hfp, hcomp]
      · simp [hfp, hl]
      · intro e he
        rw [hfp] at he
        exact Except.noConfusion he
    · have hfp : filePackInit fs l = .ok (some a, some ⟨l⟩) := by
        simp [filePackInit, harch, hcomp, Except.toOption]
      refine ⟨?_, ?_, ?_⟩
      · simp [hfp, hcomp]
      · simp [hfp, hl]
      · intro e he
        rw [hfp] at he
        exact Except.noConfusion he

/-- Witness for the amended C4 at the non-existent path a.tar: construction
succeeds via the archive side, so no aggregate error arises. -/
theorem filepack_init_aggregate_witness :
    ((∃ x, filePackInit ⟨[], 0⟩ (.user ["a.tar"]) = .ok x) ↔
      ((∃ a, archiveInit ⟨[], 0⟩ (.user ["a.tar"]) = .ok a) ∨
       (∃ c, compressionInit ⟨[], 0⟩ (.user ["a.tar"]) = .ok c))) ∧
    ((∃ e, filePackInit ⟨[], 0⟩ (.user ["a.tar"]) = .error e) ↔
      (lookupA ([] : List (Loc × FileData)) (.user ["a.tar"]) = none ∧
       ArchiveType.ofExt? (lstripDot (pySuffix (Loc.user ["a.tar"]).baseName)) = none)) ∧
    (∀ e, filePackInit ⟨[], 0⟩ (.user ["a.tar"]) = .error e →
       e = .exceptionGroup (.valueError ERROR_MESSAGE_NOT_SUPPORTED) .fileNotFoundError) :=
  filepack_init_aggregate ⟨[], 0⟩ (.user ["a.tar"])

/-- C6: Archive construction decides the format tag from content sniffing
alone for an existing path — any two filesystems holding the same content
under any two names classify identically, so the filename is never consulted
— from the filename suffix for a non-existent path, and a sniff result or
suffix outside the closed archive set raises ValueError, never a silent
default. -/
theorem archive_init_format_decision :
    (∀ (fs₁ fs₂ : FS) (l₁ l₂ : Loc) (d : FileData),
       lookupA fs₁.files l₁ = some d → lookupA fs₂.files l₂ = some d →
       (archiveInit fs₁ l₁).map (fun a => a.type) =
         (archiveInit fs₂ l₂).map (fun a => a.type)) ∧
    (∀ (fs : FS) (l : Loc) (t : ArchiveType), lookupA fs.files l = none →
       ArchiveType.ofExt? (lstripDot (pySuffix l.baseName)) = some t →
       archiveInit fs l = .ok ⟨l, t⟩) ∧
    (∀ (fs : FS) (l : Loc), lookupA fs.files l = none →
       ArchiveType.ofExt? (lstripDot (pySuffix l.baseName)) = none →
       archiveInit fs l = .error (.valueError ERROR_MESSAGE_NOT_SUPPORTED)) ∧
    (∀ (fs : FS) (l : Loc) (d : FileData) (e : String) (t : ArchiveType),
       lookupA fs.files l = some d → sniffExt d = some e → ArchiveType.ofExt? e = some t →
       archiveInit fs l = .ok ⟨l, t⟩) ∧
    (∀ (fs : FS) (l : Loc) (d : FileData),
       lookupA fs.files l = some d →
       (sniffExt d = none ∨ (∃ e, sniffExt d = some e ∧ ArchiveType.ofExt? e = none)) →
       ∃ msg, archiveInit fs l = .error (.valueError msg)) := by
  refine ⟨?_, ?_, ?_, ?_, ?_⟩
  · intro fs₁ fs₂ l₁ l₂ d h₁ h₂
    simp only [archiveInit, h₁, h₂]
    rcases hsn : sniffExt d with _ | e
    · simp [Except.map]
    · rcases hof : ArchiveType.ofExt? e with _ | t
      · simp [hof, Except.map]
      · simp [hof, Except.map]
  · intro fs l t hnone hsuf
    simp [archiveInit, hnone, hsuf]
  · intro fs l hnone hsuf
    simp [archiveInit, hnone, hsuf]
  · intro fs l d e t hsome hsn hsuf
    simp [archiveInit, hsome, hsn, hsuf]
  · intro fs l d hsome hbad
    rcases hbad with hsn | ⟨e, hsn, hsuf⟩
    · exact ⟨MSG_TYPE_NOT_RECOGNIZED, by simp [archiveInit, hsome, hsn]⟩
    · exact ⟨MSG_NOT_A_VALID_ARCHIVE_TYPE, by simp [archiveInit, hsome, hsn, hsuf]⟩

/-- Witness for C6: an existing gzip-compressed file named with a zip suffix
classifies by its content (and therefore fails archive construction, since
gz is no archive format), while the same name without a file behind it
infers zip from the suffix. -/
theorem archive_init_format_decision_witness :
    (∃ msg, archiveInit
        ⟨[(.user ["x.zip"], .compressedF .gzip (some 9) (.plain [1]))], 0⟩
        (.user ["x.zip"]) = .error (.valueError msg)) ∧
    archiveInit ⟨[], 0⟩ (.user ["x.zip"]) = .ok ⟨.user ["x.zip"], .zip⟩ :=
  ⟨archive_init_format_decision.2.2.2.2
    ⟨[(.user ["x.zip"], .compressedF .gzip (some 9) (.plain [1]))], 0⟩
    (.user ["x.zip"]) (.compressedF .gzip (some 9) (.plain [1])) rfl
    (Or.inr ⟨"gz", rfl, rfl⟩),
   archive_init_format_decision.2.1 ⟨[], 0⟩ (.user ["x.zip"]) .zip rfl (by decide)⟩

/-- Counterexample to C8 as stated: the levels 1 and 9, both of which the
compression facade can pass, configure the xz codec differently — the
backend forwards the level to lzma.open as the preset instead of ignoring
it. -/
theorem xz_level_counterexample :
    XZCompression.openArgs "wb" (some 1) ≠ XZCompression.openArgs "wb" (some 9) := by
  decide

/-- C8 amended: the xz backend forwards the caller-supplied compression level
unchanged to the codec as the lzma preset, so two open calls configure the
codec identically exactly when their levels are equal. -/
theorem xz_open_forwards_level (mode : String) (l₁ l₂ : Option Nat) :
    XZCompression.openArgs mode l₁ = XZCompression.openArgs mode l₂ ↔ l₁ = l₂ := by
  simp [XZCompression.openArgs, CodecOpenArgs.mk.injEq]

/-- Counterexample to C10 as stated: the algorithm string tar lies outside
the supported compression set, yet is_compressed on an existing tar archive
returns True rather than false, because the comparison is against the raw
sniffed extension. -/
theorem is_compressed_unsupported_counterexample :
    ¬ (CompressionType.ofExt? "tar" = none →
       isCompressed ⟨[(.user ["a.tar"], .archiveF .tar [("m", .plain [1])])], 0⟩
         (.user ["a.tar"]) "tar" = .ok false) := by
  intro hcl
  have h2 := hcl rfl
  have h3 : (true : Bool) = false := Except.ok.inj h2
  exact Bool.noConfusion h3

/-- C10 amended: on an existing file, is_compressed is total and never
raises; it returns false when the sniffer recognizes nothing, and false for
every algorithm string outside the sniffer's recognizable extensions; but an
algorithm string equal to the file's sniffed extension returns true even
when that string is no supported compression algorithm. -/
theorem is_compressed_total (fs : FS) (l : Loc) (alg : String) (d : FileData)
    (h : lookupA fs.files l = some d) :
    (∃ b, isCompressed fs l alg = .ok b) ∧
    (sniffExt d = none → isCompressed fs l alg = .ok false) ∧
    ((∀ c : CompressionType, alg ≠ c.ext) → (∀ a : ArchiveType, alg ≠ a.ext) →
      isCompressed fs l alg = .ok false) := by
  refine ⟨⟨sniffExt d == some alg, by simp [isCompressed, h]⟩, ?_, ?_⟩
  · intro hsn
    simp [isCompressed, h, hsn]
  · intro hc ha
    cases d with
    | plain b => simp [isCompressed, h, sniffExt]
    | archiveF t es =>
      have : t.ext ≠ alg := fun he => ha t he.symm
      simp [isCompressed, h, sniffExt, this]
    | compressedF c lv b =>
      have : c.ext ≠ alg := fun he => hc c he.symm
      simp [isCompressed, h, sniffExt, this]

/-- Witness for the amended C10 at a plain text file and the unsupported
algorithm string zzz. -/
theorem is_compressed_total_witness :
    (∃ b, isCompressed ⟨[(.user ["doc.txt"], .plain [72])], 0⟩
        (.user ["doc.txt"]) "zzz" = .ok b) ∧
    (sniffExt (FileData.plain [72]) = none →
      isCompressed ⟨[(.user ["doc.txt"], .plain [72])], 0⟩ (.user ["doc.txt"]) "zzz" =
        .ok false) ∧
    ((∀ c : CompressionType, "zzz" ≠ c.ext) → (∀ a : ArchiveType, "zzz" ≠ a.ext) →
      isCompressed ⟨[(.user ["doc.txt"], .plain [72])], 0⟩ (.user ["doc.txt"]) "zzz" =
        .ok false) :=
  is_compressed_total ⟨[(.user ["doc.txt"], .plain [72])], 0⟩ (.user ["doc.txt"]) "zzz"
    (.plain [72]) rfl

theorem CompressionType.ext_inj (a b : CompressionType) (h : a.ext = b.ext) : a = b := by
  cases a <;> cases b <;> simp_all [CompressionType.ext]

theorem ofExt?_ext (c : CompressionType) : CompressionType.ofExt? c.ext = some c := by
  cases c <;> rfl

theorem compress_err_none (fs : FS) (faults : List Bool) (h : CompressionH) (alg : String)
    (target? : Option Loc) (inPlace : Bool) (level : Nat)
    (hl : lookupA fs.files h.path = none) :
    compress h alg target? inPlace level ⟨fs, faults, []⟩ =
      (.error (.failedToCompressFile .fileNotFoundError), ⟨fs, faults, []⟩) := by
  simp [compress, reraiseAs, mbind, getFS, isCompressed, hl, mthrow]

theorem compress_err_already (fs : FS) (faults : List Bool) (h : CompressionH) (alg : String)
    (target? : Option Loc) (inPlace : Bool) (level : Nat) (d : FileData)
    (hl : lookupA fs.files h.path = some d)
    (hb : (sniffExt d == some alg) = true) :
    compress h alg target? inPlace level ⟨fs, faults, []⟩ =
      (.error (.failedToCompressFile .fileAlreadyCompressed), ⟨fs, faults, []⟩) := by
  simp [compress, reraiseAs, mbind, getFS, isCompressed, hl, hb, mthrow]

theorem compress_err_unsupported (fs : FS) (faults : List Bool) (h : CompressionH)
    (alg : String) (target? : Option Loc) (inPlace : Bool) (level : Nat) (d : FileData)
    (hl : lookupA fs.files h.path = some d)
    (hb : (sniffExt d == some alg) = false)
    (hcl : CompressionType.ofExt? alg = none) :
    compress h alg target? inPlace level ⟨fs, faults, []⟩ =
      (.error (.failedToCompressFile .compressionTypeNotSupported), ⟨fs, faults, []⟩) := by
  simp [compress, reraiseAs, mbind, getFS, isCompressed, hl, hb, getCompressionClient,
    hcl, mthrow]

theorem compress_err_fault (fs : FS) (faults : List Bool) (h : CompressionH) (alg : String)
    (c : CompressionType) (target? : Option Loc) (inPlace : Bool) (level : Nat) (d : FileData)
    (hl : lookupA fs.files h.path = some d)
    (hb : (sniffExt d == some alg) = false)
    (hcl : CompressionType.ofExt? alg = some c)
    (hbit : faults.headD true = false) :
    compress h alg target? inPlace level ⟨fs, faults, []⟩ =
      (.error (.failedToCompressFile .ioFault), ⟨fs, faults.tail, []⟩) := by
  have hbit2 : faults.head?.getD true = false := by simpa using hbit
  simp [compress, reraiseAs, mbind, getFS, isCompressed, hl, hb, getCompressionClient,
    hcl, codecWrite, nextFault, hbit2, mthrow]

theorem compress_ok_run (fs : FS) (faults : List Bool) (h : CompressionH) (alg : String)
    (c : CompressionType) (src : FileData) (target? : Option Loc) (inPlace : Bool)
    (level : Nat)
    (hcl : CompressionType.ofExt? alg = some c)
    (hl : lookupA fs.files h.path = some src)
    (hb : (sniffExt src == some alg) = false)
    (hbit : faults.headD true = true) :
    compress h alg target? inPlace level ⟨fs, faults, []⟩ =
      (if inPlace then
        (.ok (target?.getD (h.path.withName (h.path.baseName ++ "." ++ alg)),
              ⟨target?.getD (h.path.withName (h.path.baseName ++ "." ++ alg))⟩),
         ⟨(fs.write (target?.getD (h.path.withName (h.path.baseName ++ "." ++ alg)))
             (.compressedF c (some level) src)).erase h.path, faults.tail,
          [.writeE (target?.getD (h.path.withName (h.path.baseName ++ "." ++ alg))),
           .unlinkE h.path]⟩)
      else
        (.ok (h.path, (⟨h.path⟩ : CompressionH)),
         ⟨fs.write (target?.getD (h.path.withName (h.path.baseName ++ "." ++ alg)))
            (.compressedF c (some level) src), faults.tail,
          [.writeE (target?.getD (h.path.withName (h.path.baseName ++ "." ++ alg)))]⟩)) := by
  have hbit2 : faults.head?.getD true = true := by simpa using hbit
  have hsome : ∀ tgt : Loc, ∃ y,
      lookupA ((fs.write tgt (.compressedF c (some level) src))).files h.path = some y := by
    intro tgt
    by_cases htp : h.path = tgt
    · rw [htp]
      exact ⟨_, lookupA_write_self _ _ _⟩
    · rw [lookupA_write_ne _ _ _ _ htp]
      exact ⟨src, hl⟩
  obtain ⟨y, hy⟩ := hsome (target?.getD (h.path.withName (h.path.baseName ++ "." ++ alg)))
  cases inPlace with
  | false =>
    simp [compress, reraiseAs, mbind, getFS, isCompressed, hl, hb, getCompressionClient,
      hcl, codecWrite, nextFault, hbit2, emitEv, modFS, mret]
  | true =>
    simp [compress, reraiseAs, mbind, getFS, isCompressed, hl, hb, getCompressionClient,
      hcl, codecWrite, nextFault, hbit2, emitEv, modFS, mret, unlinkStrict, hy]

theorem decompress_err_none (fs : FS) (faults : List Bool) (h : CompressionH) (alg : String)
    (target? : Option Loc) (inPlace : Bool)
    (hl : lookupA fs.files h.path = none) :
    decompress h alg target? inPlace ⟨fs, faults, []⟩ =
      (.error (.failedToDecompressFile .fileNotFoundError), ⟨fs, faults, []⟩) := by
  simp [decompress, reraiseAs, mbind, getFS, isCompressed, hl, mthrow]

theorem decompress_err_notCompressed (fs : FS) (faults : List Bool) (h : CompressionH)
    (alg : String) (target? : Option Loc) (inPlace : Bool) (d : FileData)
    (hl : lookupA fs.files h.path = some d)
    (hb : (sniffExt d == some alg) = false) :
    decompress h alg target? inPlace ⟨fs, faults, []⟩ =
      (.error (.failedToDecompressFile .fileNotCompressed), ⟨fs, faults, []⟩) := by
  simp [decompress, reraiseAs, mbind, getFS, isCompressed, hl, hb, mthrow]

theorem decompress_err_unsupported (fs : FS) (faults : List Bool) (h : CompressionH)
    (alg : String) (target? : Option Loc) (inPlace : Bool) (d : FileData)
    (hl : lookupA fs.files h.path = some d)
    (hb : (sniffExt d == some alg) = true)
    (hcl : CompressionType.ofExt? alg = none) :
    decompress h alg target? inPlace ⟨fs, faults, []⟩ =
      (.error (.failedToDecompressFile .compressionTypeNotSupported), ⟨fs, faults, []⟩) := by
  simp [decompress, reraiseAs, mbind, getFS, isCompressed, hl, hb, getCompressionClient,
    hcl, mthrow]

theorem decompress_err_fault (fs : FS) (faults : List Bool) (h : CompressionH) (alg : String)
    (c : CompressionType) (target? : Option Loc) (inPlace : Bool) (d : FileData)
    (hl : lookupA fs.files h.path = some d)
    (hb : (sniffExt d == some alg) = true)
    (hcl : CompressionType.ofExt? alg = some c)
    (hbit : faults.headD true = false) :
    decompress h alg target? inPlace ⟨fs, faults, []⟩ =
      (.error (.failedToDecompressFile .ioFault), ⟨fs, faults.tail, []⟩) := by
  have hbit2 : faults.head?.getD true = false := by simpa using hbit
  simp [decompress, reraiseAs, mbind, getFS, isCompressed, hl, hb, getCompressionClient,
    hcl, codecRead, nextFault, hbit2, mthrow]

theorem decompress_ok_run (fs : FS) (faults : List Bool) (h : CompressionH)
    (c : CompressionType) (lv : Option Nat) (inner : FileData) (target? : Option Loc)
    (inPlace : Bool)
    (hl : lookupA fs.files h.path = some (.compressedF c lv inner))
    (hbit : faults.headD true = true) :
    decompress h c.ext target? inPlace ⟨fs, faults, []⟩ =
      (if inPlace then
        (.ok (target?.getD (h.path.withName (pyStem h.path.baseName)),
              (⟨target?.getD (h.path.withName (pyStem h.path.baseName))⟩ : CompressionH)),
         ⟨(fs.write (target?.getD (h.path.withName (pyStem h.path.baseName))) inner).erase
            h.path, faults.tail,
          [.writeE (target?.getD (h.path.withName (pyStem h.path.baseName))),
           .unlinkE h.path]⟩)
      else
        (.ok (h.path, (⟨h.path⟩ : CompressionH)),
         ⟨fs.write (target?.getD (h.path.withName (pyStem h.path.baseName))) inner,
          faults.tail,
          [.writeE (target?.getD (h.path.withName (pyStem h.path.baseName)))]⟩)) := by
  have hbit2 : faults.head?.getD true = true := by simpa using hbit
  have hsome : ∀ tgt : Loc, ∃ y,
      lookupA ((fs.write tgt inner)).files h.path = some y := by
    intro tgt
    by_cases htp : h.path = tgt
    · rw [htp]
      exact ⟨_, lookupA_write_self _ _ _⟩
    · rw [lookupA_write_ne _ _ _ _ htp]
      exact ⟨_, hl⟩
  obtain ⟨y, hy⟩ := hsome (target?.getD (h.path.withName (pyStem h.path.baseName)))
  cases inPlace with
  | false =>
    simp [decompress, reraiseAs, mbind, getFS, isCompressed, hl, sniffExt,
      getCompressionClient, ofExt?_ext, codecRead, nextFault, hbit2, emitEv, modFS, mret]
  | true =>
    simp [decompress, reraiseAs, mbind, getFS, isCompressed, hl, sniffExt,
      getCompressionClient, ofExt?_ext, codecRead, nextFault, hbit2, emitEv, modFS, mret,
      unlinkStrict, hy]

theorem ofExt?_archive_ext (t : ArchiveType) : CompressionType.ofExt? t.ext = none := by
  cases t <;> rfl

/-- C7: compress raises FileAlreadyCompressed (as the root cause of the
surfaced FailedToCompressFile) exactly when is_compressed holds for the
requested algorithm at call time; a file compressed under a different
algorithm passes the check and, absent injected faults, the compression
proceeds and succeeds. -/
theorem compress_already_compressed_iff (fs : FS) (faults : List Bool) (h : CompressionH)
    (alg : String) (target? : Option Loc) (inPlace : Bool) (level : Nat) :
    ((∃ e, (compress h alg target? inPlace level ⟨fs, faults, []⟩).1 = .error e ∧
        e.root = .fileAlreadyCompressed) ↔ isCompressed fs h.path alg = .ok true) ∧
    (∀ (c' : CompressionType) (lv : Option Nat) (b : FileData) (γ : CompressionType),
       lookupA fs.files h.path = some (.compressedF c' lv b) → alg = γ.ext → γ ≠ c' →
       faults = [] →
       ∃ out s', compress h alg target? inPlace level ⟨fs, faults, []⟩ = (.ok out, s')) := by
  constructor
  · rcases hl : lookupA fs.files h.path with _ | d
    · rw [compress_err_none fs faults h alg target? inPlace level hl]
      constructor
      · intro ⟨e, he, hr⟩
        simp only at he
        obtain rfl := Except.error.inj he
        simp [PyErr.root] at hr
      · intro hcontr
        simp [isCompressed, hl] at hcontr
    · cases hb : sniffExt d == some alg with
      | true =>
        rw [compress_err_already fs faults h alg target? inPlace level d hl hb]
        constructor
        · intro _
          simp [isCompressed, hl, hb]
        · intro _
          exact ⟨.failedToCompressFile .fileAlreadyCompressed, rfl, rfl⟩
      | false =>
        have hic : isCompressed fs h.path alg = .ok false := by
          simp only [isCompressed, hl, hb]
        rcases hcl : CompressionType.ofExt? alg with _ | c
        · rw [compress_err_unsupported fs faults h alg target? inPlace level d hl hb hcl]
          constructor
          · intro ⟨e, he, hr⟩
            simp only at he
            obtain rfl := Except.error.inj he
            simp [PyErr.root] at hr
          · intro hcontr
            rw [hic] at hcontr
            simp at hcontr
        · cases hbit : faults.headD true with
          | false =>
            rw [compress_err_fault fs faults h alg c target? inPlace level d hl hb hcl hbit]
            constructor
            · intro ⟨e, he, hr⟩
              simp only at he
              obtain rfl := Except.error.inj he
              simp [PyErr.root] at hr
            · intro hcontr
              rw [hic] at hcontr
              simp at hcontr
          | true =>
            rw [compress_ok_run fs faults h alg c d target? inPlace level hcl hl hb hbit]
            constructor
            · intro ⟨e, he, hr⟩
              cases inPlace <;> simp at he
            · intro hcontr
              rw [hic] at hcontr
              simp at hcontr
  · intro c' lv b γ hl halg hne hfaults
    subst hfaults
    have hb : (sniffExt (FileData.compressedF c' lv b) == some alg) = false := by
      simp only [sniffExt, beq_eq_false_iff_ne, ne_eq, Option.some.injEq]
      intro he
      exact hne (CompressionType.ext_inj γ c' (by rw [← halg, he]))
    have hcl : CompressionType.ofExt? alg = some γ := by
      rw [halg]
      exact ofExt?_ext γ
    rw [compress_ok_run fs [] h alg γ (FileData.compressedF c' lv b) target? inPlace level
      hcl hl hb rfl]
    cases inPlace
    · exact ⟨_, _, rfl⟩
    · exact ⟨_, _, rfl⟩

/-- Witness for C7 at a gzip-compressed file: compressing it as gz fails with
FileAlreadyCompressed as the root cause, while compressing the same file as
xz succeeds. -/
theorem compress_already_compressed_iff_witness :
    (∃ e, (compress ⟨.user ["doc.txt.gz"]⟩ "gz" none false 9
        ⟨⟨[(.user ["doc.txt.gz"], .compressedF .gzip (some 9) (.plain [72]))], 0⟩,
         [], []⟩).1 = .error e ∧ e.root = .fileAlreadyCompressed) ∧
    (∃ out s', compress ⟨.user ["doc.txt.gz"]⟩ "xz" none false 9
        ⟨⟨[(.user ["doc.txt.gz"], .compressedF .gzip (some 9) (.plain [72]))], 0⟩,
         [], []⟩ = (.ok out, s')) :=
  ⟨(compress_already_compressed_iff
      ⟨[(.user ["doc.txt.gz"], .compressedF .gzip (some 9) (.plain [72]))], 0⟩
      [] ⟨.user ["doc.txt.gz"]⟩ "gz" none false 9).1.mpr rfl,
   (compress_already_compressed_iff
      ⟨[(.user ["doc.txt.gz"], .compressedF .gzip (some 9) (.plain [72]))], 0⟩
      [] ⟨.user ["doc.txt.gz"]⟩ "xz" none false 9).2
     .gzip (some 9) (.plain [72]) .xz rfl rfl (by decide) rfl⟩

/-- C9: compress and decompress return the handle's current path: on success
with in_place the returned path is the resolved target and the handle is
re-pointed at it; without in_place the returned path is the original source
path and the handle keeps it, even though the freshly written file lives at
the resolved target (which exists in the final filesystem). -/
theorem compress_decompress_return_current_path (fs : FS) (faults : List Bool)
    (h : CompressionH) (alg : String) (target? : Option Loc) (inPlace : Bool) (level : Nat) :
    (∀ q hNew s', compress h alg target? inPlace level ⟨fs, faults, []⟩ = (.ok (q, hNew), s') →
       hNew.path = q ∧
       (inPlace = true → q = target?.getD (h.path.withName (h.path.baseName ++ "." ++ alg))) ∧
       (inPlace = false → q = h.path ∧
         ∃ d, lookupA s'.fs.files
           (target?.getD (h.path.withName (h.path.baseName ++ "." ++ alg))) = some d)) ∧
    (∀ q hNew s', decompress h alg target? inPlace ⟨fs, faults, []⟩ = (.ok (q, hNew), s') →
       hNew.path = q ∧
       (inPlace = true → q = target?.getD (h.path.withName (pyStem h.path.baseName))) ∧
       (inPlace = false → q = h.path ∧
         ∃ d, lookupA s'.fs.files
           (target?.getD (h.path.withName (pyStem h.path.baseName))) = some d)) := by
  constructor
  · intro q hNew s' hres
    rcases hl : lookupA fs.files h.path with _ | d
    · rw [compress_err_none fs faults h alg target? inPlace level hl] at hres
      simp at hres
    · cases hb : sniffExt d == some alg with
      | true =>
        rw [compress_err_already fs faults h alg target? inPlace level d hl hb] at hres
        simp at hres
      | false =>
        rcases hcl : CompressionType.ofExt? alg with _ | c
        · rw [compress_err_unsupported fs faults h alg target? inPlace level d hl hb hcl]
            at hres
          simp at hres
        · cases hbit : faults.headD true with
          | false =>
            rw [compress_err_fault fs faults h alg c target? inPlace level d hl hb hcl hbit]
              at hres
            simp at hres
          | true =>
            rw [compress_ok_run fs faults h alg c d target? inPlace level hcl hl hb hbit]
              at hres
            cases inPlace with
            | true =>
              simp only [if_true, Prod.mk.injEq, Except.ok.injEq] at hres
              obtain ⟨⟨hq, hNew'⟩, hs'⟩ := hres
              refine ⟨?_, fun _ => hq.symm, fun hfalse => Bool.noConfusion hfalse⟩
              rw [← hNew', ← hq]
            | false =>
              simp only [if_false, Bool.false_eq_true, Prod.mk.injEq, Except.ok.injEq]
                at hres
              obtain ⟨⟨hq, hNew'⟩, hs'⟩ := hres
              refine ⟨by rw [← hNew', ← hq], fun htrue => Bool.noConfusion htrue,
                fun _ => ⟨hq.symm, ?_⟩⟩
              rw [← hs']
              exact ⟨_, lookupA_write_self _ _ _⟩
  · intro q hNew s' hres
    rcases hl : lookupA fs.files h.path with _ | d
    · rw [decompress_err_none fs faults h alg target? inPlace hl] at hres
      simp at hres
    · cases hb : sniffExt d == some alg with
      | false =>
        rw [decompress_err_notCompressed fs faults h alg target? inPlace d hl hb] at hres
        simp at hres
      | true =>
        cases d with
        | plain bs => simp [sniffExt] at hb
        | archiveF t es =>
          have hcl : CompressionType.ofExt? alg = none := by
            have halg : t.ext = alg := by simpa [sniffExt] using hb
            rw [← halg]
            exact ofExt?_archive_ext t
          rw [decompress_err_unsupported fs faults h alg target? inPlace _ hl hb hcl] at hres
          simp at hres
        | compressedF c' lv inner =>
          have halg : c'.ext = alg := by simpa [sniffExt] using hb
          subst halg
          cases hbit : faults.headD true with
          | false =>
            rw [decompress_err_fault fs faults h c'.ext c' target? inPlace _ hl
              (by simp [sniffExt]) (ofExt?_ext c') hbit] at hres
            simp at hres
          | true =>
            rw [decompress_ok_run fs faults h c' lv inner target? inPlace hl hbit] at hres
            cases inPlace with
            | true =>
              simp only [if_true, Prod.mk.injEq, Except.ok.injEq] at hres
              obtain ⟨⟨hq, hNew'⟩, hs'⟩ := hres
              refine ⟨?_, fun _ => hq.symm, fun hfalse => Bool.noConfusion hfalse⟩
              rw [← hNew', ← hq]
            | false =>
              simp only [if_false, Bool.false_eq_true, Prod.mk.injEq, Except.ok.injEq]
                at hres
              obtain ⟨⟨hq, hNew'⟩, hs'⟩ := hres
              refine ⟨by rw [← hNew', ← hq], fun htrue => Bool.noConfusion htrue,
                fun _ => ⟨hq.symm, ?_⟩⟩
              rw [← hs']
              exact ⟨_, lookupA_write_self _ _ _⟩

/-- Witness for C9: compressing a plain file as gz without in_place returns
the original source path while the compressed copy sits at the default
target. -/
theorem compress_decompress_return_current_path_witness :
    (⟨.user ["doc.txt"]⟩ : CompressionH).path = Loc.user ["doc.txt"] ∧
    (false = false → Loc.user ["doc.txt"] = Loc.user ["doc.txt"] ∧
      ∃ d, lookupA ((compress ⟨.user ["doc.txt"]⟩ "gz" none false 9
          ⟨⟨[(.user ["doc.txt"], .plain [72])], 0⟩, [], []⟩).2).fs.files
        ((none : Option Loc).getD ((Loc.user ["doc.txt"]).withName
          ((Loc.user ["doc.txt"]).baseName ++ "." ++ "gz"))) = some d) := by
  have happ := (compress_decompress_return_current_path
    ⟨[(.user ["doc.txt"], .plain [72])], 0⟩ [] ⟨.user ["doc.txt"]⟩ "gz" none false 9).1
    (Loc.user ["doc.txt"]) ⟨.user ["doc.txt"]⟩
    ((compress ⟨.user ["doc.txt"]⟩ "gz" none false 9
      ⟨⟨[(.user ["doc.txt"], .plain [72])], 0⟩, [], []⟩).2) rfl
  exact ⟨happ.1, fun _ => happ.2.2 rfl⟩

/-- Witness for the amended C8: instantiating the forwarding equivalence at
level 9 against itself. -/
theorem xz_open_forwards_level_witness :
    XZCompression.openArgs "wb" (some 9) = XZCompression.openArgs "wb" (some 9) ↔
      (some 9 : Option Nat) = some 9 :=
  xz_open_forwards_level "wb" (some 9) (some 9)

end Filepack
